import Mathlib

/-!
Verification development of the deployment-validation-operator reconciliation
and caching core (pkg/controller/validationscache.go).

The Go code is shallowly embedded as executable Lean definitions:

* the versioned cache (a Go map from validation key to validation resource)
  is modelled as an association list whose operations reproduce Go map
  semantics (lookup finds the unique binding, store overwrites, delete
  removes);
* the reconciliation engine's stateful methods become explicit state-passing
  functions over a record holding the two caches; mutation in place becomes
  returning the updated state, and a returned Go error becomes an
  Option String carried alongside the state;
* interactions with external collaborators (the Kubernetes client's paginated
  List calls, the discovery query, the watch-namespaces cache, the validation
  engine, the metrics sink) are parameters bundled in an environment record.
  A paginated listing is modelled by the sequence of responses the server
  would return for the successive continuation tokens; the Go loop consumes
  that sequence until a response carries an empty continue token.  Calls to
  the validation engine, client List calls, calls of the per-object
  reconcile method, and metric deletions are recorded in an event trace so
  that theorems can count invocations.
-/

namespace DVO

/-! ## Unstructured objects

A client.Object / unstructured.Unstructured is modelled by the fields the
embedded code reads: GroupVersionKind coordinates, namespace, name,
resourceVersion, UID, and the two nested paths consulted by getAppLabel.
-/

/-- Result of unstructured.NestedString at a fixed path: the string value if
present, notFound when the path is absent, or nestedErr when the path exists
but traverses or ends in a value of the wrong type (in which case
NestedString reports found = false together with a non-nil error). -/
inductive NestedResult where
  | notFound
  | found (s : String)
  | nestedErr
deriving DecidableEq

/-- Model of a Kubernetes object as read by the embedded code. -/
structure Obj where
  group : String
  version : String
  kind : String
  nspace : String
  name : String
  resourceVersion : String
  uid : String
  /-- value at metadata.labels.app -/
  metadataLabelsApp : NestedResult
  /-- value at spec.selector.matchLabels.app -/
  specSelectorMatchLabelsApp : NestedResult
deriving DecidableEq

/-- validationKey: the unique identifier for an object (group, version, kind,
namespace, name), as produced by newValidationKey. -/
structure validationKey where
  group : String
  version : String
  kind : String
  nspace : String
  name : String
deriving DecidableEq

/-- newValidationKey returns a unique identifier for the given object. -/
def newValidationKey (o : Obj) : validationKey :=
  { group := o.group, version := o.version, kind := o.kind
    nspace := o.nspace, name := o.name }

/-- validationResource: a cache entry holding the resource version, UID and
validation outcome (validations.ValidationOutcome modelled as an opaque
string). -/
structure validationResource where
  version : String
  uid : String
  outcome : String
deriving DecidableEq

/-- newValidationResource populates a validationResource. -/
def newValidationResource (rscVer : String) (uid : String) (outcome : String) :
    validationResource :=
  { version := rscVer, uid := uid, outcome := outcome }

/-- validationCache: a Go map from validationKey to validationResource,
modelled as an association list. -/
def validationCache : Type := List (validationKey × validationResource)

instance : DecidableEq validationCache :=
  inferInstanceAs (DecidableEq (List (validationKey × validationResource)))

instance : Membership (validationKey × validationResource) validationCache :=
  inferInstanceAs (Membership _ (List (validationKey × validationResource)))

instance (p : validationKey × validationResource) (vc : validationCache) :
    Decidable (p ∈ vc) :=
  show Decidable
      (Membership.mem (γ := List (validationKey × validationResource)) vc p)
    from inferInstance

namespace validationCache

/-- Lookup of a key in the map (the Go map read m[k]). -/
def lookupKey : validationCache → validationKey → Option validationResource
  | [], _ => none
  | (k', v) :: rest, k => if k' = k then some v else lookupKey rest k

/-- has returns true if the given key exists in the instance. -/
def has (vc : validationCache) (key : validationKey) : Bool :=
  (vc.lookupKey key).isSome

/-- removeKey deletes a key, and its value, from the instance
(the Go built-in delete). -/
def removeKey : validationCache → validationKey → validationCache
  | [], _ => []
  | (k', v) :: rest, k =>
    if k' = k then removeKey rest k else (k', v) :: removeKey rest k

/-- Go map write m[k] = v: overwrites any existing binding for the key. -/
def storeKey (vc : validationCache) (k : validationKey) (v : validationResource) :
    validationCache :=
  (k, v) :: vc.removeKey k

/-- store caches a ValidationOutcome for the given object, keyed by its
identity, recording its current resource version and UID. -/
def store (vc : validationCache) (o : Obj) (outcome : String) : validationCache :=
  vc.storeKey (newValidationKey o)
    (newValidationResource o.resourceVersion o.uid outcome)

/-- drain frees the cache, losing all cached outcomes. -/
def drain (_vc : validationCache) : validationCache := []

/-- remove uncaches the ValidationOutcome for the given object if it exists
and is a noop if it does not. -/
def remove (vc : validationCache) (o : Obj) : validationCache :=
  vc.removeKey (newValidationKey o)

/-- retrieve returns the validationResource for the given object if present. -/
def retrieve (vc : validationCache) (o : Obj) : Option validationResource :=
  vc.lookupKey (newValidationKey o)

/-- objectAlreadyValidated returns true if the given object has a cached
ValidationOutcome with the same resource version.  If the resource version of
an existing entry is stale, the cached entry is removed and false is
returned.  The Go method mutates the receiver; here the updated cache is
returned alongside the boolean. -/
def objectAlreadyValidated (vc : validationCache) (o : Obj) :
    Bool × validationCache :=
  match vc.retrieve o with
  | none => (false, vc)
  | some res =>
    if res.version ≠ o.resourceVersion then
      (false, vc.remove o)
    else
      (true, vc)

end validationCache

/-! ## Reconciliation engine: types -/

/-- schema.GroupVersionKind coordinates of a resource kind. -/
structure GroupVersionKind where
  group : String
  version : String
  kind : String
deriving DecidableEq

/-- metav1.APIResource as consumed by processAllResources: its coordinates
(via gvkFromMetav1APIResource) and whether it is namespaced. -/
structure APIResource where
  gvk : GroupVersionKind
  namespaced : Bool
deriving DecidableEq

/-- validations.Request as built by handleResourceDeletions: the coordinates
passed to the metrics sink (kind, name, namespace, namespace UID, object
UID). -/
structure Request where
  kind : String
  name : String
  nspace : String
  nspaceUID : String
  uid : String
deriving DecidableEq

/-- Trace events recording the engine's calls to external collaborators.
listCall records one client.List request (kind coordinates and namespace);
reconcileCall records one call of the per-object reconcile method;
evalOne records one call of validations.RunValidations, identified by the
object's validation key and the namespace UID carried in the request;
evalBatch records one call of validations.RunValidationsForObjects, with the
non-validated objects, their typed conversions actually passed to the call,
and the namespace UID; deleteMetrics records one validations.DeleteMetrics
call, together with the cache key being reclaimed. -/
inductive Event where
  | listCall (gvk : GroupVersionKind) (nspace : String)
  | reconcileCall (o : Obj)
  | evalOne (key : validationKey) (nspaceUID : String)
  | evalBatch (objs : List Obj) (typed : List Obj) (nspaceUID : String)
  | deleteMetrics (key : validationKey) (req : Request)
deriving DecidableEq

/-- One response of the API server to a paginated List request: either a
failure of the call, or a page of items together with the continue token for
the next page (empty when the listing is complete). -/
inductive PageResp where
  | failure (msg : String)
  | page (items : List Obj) (cont : String)
deriving DecidableEq

/-- Environment: the external collaborators of the GenericReconciler.
pages gives, per GroupVersionKind and namespace, the sequence of responses
the API server returns to the successive List requests of one pagination
loop; apiResources is the result of the discovery query
(reconcileResourceList); watchNamespaces is the result of
watchNamespacesCache.getWatchNamespaces (namespace names);
getNamespaceUID resolves a namespace name to its UID (empty when unknown);
toTyped is the unstructured-to-typed conversion (scheme lookup plus
structural conversion, which can fail); runValidations and
runValidationsForObjects are the validation engine entry points, returning
an outcome or an error. -/
structure Env where
  pages : GroupVersionKind → String → List PageResp
  apiResources : Except String (List APIResource)
  watchNamespaces : Except String (List String)
  getNamespaceUID : String → String
  toTyped : Obj → Except String Obj
  runValidations : Obj → String → Except String String
  runValidationsForObjects : List Obj → String → Except String String

/-- Mutable state of the GenericReconciler: the durable cache of validation
outcomes and the per-pass set of currently observed objects. -/
structure GRState where
  objectValidationCache : validationCache
  currentObjects : validationCache
deriving DecidableEq

/-- Result of one stateful step of the engine: the returned error (none on
success), the state after the step, and the trace of external calls made. -/
structure StepRes where
  err : Option String
  st : GRState
  tr : List Event
deriving DecidableEq

/-! ## Reconciliation engine: functions -/

/-- reconcile processes a single object: record it in currentObjects, skip it
if it is already validated at its current resource version, otherwise build
the request (resolving the namespace UID when the object is namespaced),
convert the object to its typed form, run the validations and store the
outcome. -/
def reconcile (env : Env) (st : GRState) (o : Obj) : StepRes :=
  let cur := st.currentObjects.store o ""
  let va := st.objectValidationCache.objectAlreadyValidated o
  let st1 : GRState := ⟨va.2, cur⟩
  if va.1 then
    ⟨none, st1, []⟩
  else
    let nsUID := if o.nspace.length > 0 then env.getNamespaceUID o.nspace else ""
    match env.toTyped o with
    | .error e => ⟨some ("instantiating typed object: " ++ e), st1, []⟩
    | .ok typed =>
      match env.runValidations typed nsUID with
      | .error e =>
        ⟨some ("running validations: " ++ e), st1,
          [.evalOne (newValidationKey o) nsUID]⟩
      | .ok outcome =>
        ⟨none, ⟨st1.objectValidationCache.store o outcome, st1.currentObjects⟩,
          [.evalOne (newValidationKey o) nsUID]⟩

/-- The body of paginatedList's per-page loop over list.Items: reconcile each
item in order, stopping at the first error. -/
def reconcileItems (env : Env) (st : GRState) : List Obj → StepRes
  | [] => ⟨none, st, []⟩
  | o :: rest =>
    let r := reconcile env st o
    match r.err with
    | some e =>
      ⟨some ("reconciling object: " ++ e), r.st, Event.reconcileCall o :: r.tr⟩
    | none =>
      let r2 := reconcileItems env r.st rest
      ⟨r2.err, r2.st, (Event.reconcileCall o :: r.tr) ++ r2.tr⟩

/-- The pagination loop of paginatedList, consuming the server's successive
responses: each iteration issues one List call; a listing failure is
returned; otherwise every item of the page is reconciled as it is fetched,
and the loop ends when the returned continue token is empty.  An exhausted
response sequence models a server with no further answers and ends the
loop (reached only for ill-formed environments). -/
def paginatedListLoop (env : Env) (gvk : GroupVersionKind) (nspace : String)
    (st : GRState) : List PageResp → StepRes
  | [] => ⟨none, st, []⟩
  | .failure msg :: _ =>
    ⟨some ("listing: " ++ msg), st, [.listCall gvk nspace]⟩
  | .page items cont :: rest =>
    let r := reconcileItems env st items
    match r.err with
    | some e => ⟨some e, r.st, Event.listCall gvk nspace :: r.tr⟩
    | none =>
      if cont = "" then
        ⟨none, r.st, Event.listCall gvk nspace :: r.tr⟩
      else
        let r2 := paginatedListLoop env gvk nspace r.st rest
        ⟨r2.err, r2.st, (Event.listCall gvk nspace :: r.tr) ++ r2.tr⟩

/-- paginatedList lists the given kind in the given namespace page by page
(bounded by the configured list limit, which only shapes env.pages here) and
reconciles every fetched item. -/
def paginatedList (env : Env) (gvk : GroupVersionKind) (nspace : String)
    (st : GRState) : StepRes :=
  paginatedListLoop env gvk nspace st (env.pages gvk nspace)

/-- The list-kind coordinates used by processObjectInstances: the kind with
"List" appended. -/
def listKindGVK (gvk : GroupVersionKind) : GroupVersionKind :=
  { gvk with kind := gvk.kind ++ "List" }

/-- processObjectInstances appends "List" to the kind and runs paginatedList.
The Go code wraps the single call in wait.ExponentialBackoffWithContext, but
its condition function always reports done, so exactly one attempt is made
and its error is wrapped. -/
def processObjectInstances (env : Env) (gvk : GroupVersionKind)
    (nspace : String) (st : GRState) : StepRes :=
  let r := paginatedList env (listKindGVK gvk) nspace st
  match r.err with
  | some e => ⟨some ("processing list: " ++ e), r.st, r.tr⟩
  | none => r

/-- processClusterscopedResources processes one cluster-scoped kind (empty
namespace). -/
def processClusterscopedResources (env : Env) (gvk : GroupVersionKind)
    (st : GRState) : StepRes :=
  processObjectInstances env gvk "" st

/-- getAppLabel tries to read the app label from metadata.labels.app and, if
not found there, falls back to spec.selector.matchLabels.app; an error of
the fallback read, or absence on both paths, is returned as an error. -/
def getAppLabel (o : Obj) : Except String String :=
  match o.metadataLabelsApp with
  | .found s => .ok s
  | _ =>
    match o.specSelectorMatchLabelsApp with
    | .nestedErr => .error "nested field error"
    | .notFound =>
      .error ("cannot find any app label for " ++ o.name ++ " resource from "
        ++ o.nspace ++ " namespace")
    | .found s => .ok s

/-- Appending an object to the group of its app label in the relatedObjects
map (Go: relatedObjects[appLabel] = append(relatedObjects[appLabel], obj)).
The map is modelled as an association list in insertion order. -/
def addToGroups (groups : List (String × List Obj)) (label : String) (o : Obj) :
    List (String × List Obj) :=
  match groups with
  | [] => [(label, [o])]
  | (l, os) :: rest =>
    if l = label then (l, os ++ [o]) :: rest
    else (l, os) :: addToGroups rest label o

/-- The per-page item loop of groupAppObjects: objects whose app label does
not resolve are silently skipped, the others are appended to their label's
group. -/
def groupPageItems (groups : List (String × List Obj)) :
    List Obj → List (String × List Obj)
  | [] => groups
  | o :: rest =>
    match getAppLabel o with
    | .error _ => groupPageItems groups rest
    | .ok label => groupPageItems (addToGroups groups label o) rest

/-- The pagination loop of groupAppObjects for one kind: each iteration is
one List call; a listing failure aborts with an error, otherwise the page's
items are grouped and the loop ends on an empty continue token. -/
def groupPagesLoop (gvk : GroupVersionKind) (nspace : String)
    (groups : List (String × List Obj)) :
    List PageResp → Except String (List (String × List Obj)) × List Event
  | [] => (.ok groups, [])
  | .failure msg :: _ => (.error ("listing: " ++ msg), [.listCall gvk nspace])
  | .page items cont :: rest =>
    let groups1 := groupPageItems groups items
    if cont = "" then
      (.ok groups1, [.listCall gvk nspace])
    else
      let r := groupPagesLoop gvk nspace groups1 rest
      (r.1, Event.listCall gvk nspace :: r.2)

/-- groupAppObjects iterates over the provided kinds in the given namespace
and returns the map of listed objects grouped by their app label. -/
def groupAppObjects (env : Env) (nspace : String) :
    List GroupVersionKind → List (String × List Obj) →
    Except String (List (String × List Obj)) × List Event
  | [], groups => (.ok groups, [])
  | gvk :: rest, groups =>
    match groupPagesLoop gvk nspace groups (env.pages gvk nspace) with
    | (.error e, tr) => (.error e, tr)
    | (.ok groups1, tr) =>
      let r := groupAppObjects env nspace rest groups1
      (r.1, tr ++ r.2)

/-- The first loop of reconcileGroupOfObjects: store every object of the
group into currentObjects and collect those not already validated. -/
def partitionNonValidated (st : GRState) : List Obj → GRState × List Obj
  | [] => (st, [])
  | o :: rest =>
    let cur := st.currentObjects.store o ""
    let va := st.objectValidationCache.objectAlreadyValidated o
    let st1 : GRState := ⟨va.2, cur⟩
    let r := partitionNonValidated st1 rest
    if va.1 then r else (r.1, o :: r.2)

/-- The conversion loop of reconcileGroupOfObjects: convert every
non-validated object to its typed form, failing on the first conversion
error. -/
def convertAll (env : Env) : List Obj → Except String (List Obj)
  | [] => .ok []
  | o :: rest =>
    match env.toTyped o with
    | .error e => .error e
    | .ok t =>
      match convertAll env rest with
      | .error e => .error e
      | .ok ts => .ok (t :: ts)

/-- reconcileGroupOfObjects processes one app-label group of a namespace:
record every object in currentObjects, keep the non-validated ones, resolve
the namespace UID, convert the non-validated objects to typed form, run the
batch validation once for all of them, and on success store the single
returned outcome for each object. -/
def reconcileGroupOfObjects (env : Env) (st : GRState) (objs : List Obj)
    (nspace : String) : StepRes :=
  let p := partitionNonValidated st objs
  let st1 := p.1
  let nonValidated := p.2
  let nsUID := env.getNamespaceUID nspace
  match convertAll env nonValidated with
  | .error e => ⟨some ("instantiating typed object: " ++ e), st1, []⟩
  | .ok typedObjs =>
    match env.runValidationsForObjects typedObjs nsUID with
    | .error e =>
      ⟨some ("running validations: " ++ e), st1,
        [.evalBatch nonValidated typedObjs nsUID]⟩
    | .ok outcome =>
      ⟨none,
        ⟨nonValidated.foldl (fun vc o => vc.store o outcome)
            st1.objectValidationCache,
          st1.currentObjects⟩,
        [.evalBatch nonValidated typedObjs nsUID]⟩

/-- The loop of processNamespacedResources over one namespace's app-label
groups: each group is reconciled in turn, and the first error is returned
(wrapped with the group's label). -/
def groupsLoop (env : Env) (nspace : String) (st : GRState) :
    List (String × List Obj) → StepRes
  | [] => ⟨none, st, []⟩
  | (label, objs) :: rest =>
    let r := reconcileGroupOfObjects env st objs nspace
    match r.err with
    | some e =>
      ⟨some ("reconciling related objects with app label value " ++ label
          ++ ": " ++ e), r.st, r.tr⟩
    | none =>
      let r2 := groupsLoop env nspace r.st rest
      ⟨r2.err, r2.st, r.tr ++ r2.tr⟩

/-- The loop of processNamespacedResources over the watched namespaces:
group each namespace's objects by app label and reconcile every group; an
error while grouping or while reconciling a group is returned immediately,
abandoning the remaining namespaces. -/
def nsLoop (env : Env) (gvks : List GroupVersionKind) (st : GRState) :
    List String → StepRes
  | [] => ⟨none, st, []⟩
  | ns :: rest =>
    match groupAppObjects env ns gvks [] with
    | (.error e, tr) => ⟨some e, st, tr⟩
    | (.ok groups, tr) =>
      let r := groupsLoop env ns st groups
      match r.err with
      | some e => ⟨some e, r.st, tr ++ r.tr⟩
      | none =>
        let r2 := nsLoop env gvks r.st rest
        ⟨r2.err, r2.st, (tr ++ r.tr) ++ r2.tr⟩

/-- processNamespacedResources fetches the watched namespaces (an error
aborts namespaced processing) and runs the namespace loop. -/
def processNamespacedResources (env : Env) (st : GRState)
    (gvks : List GroupVersionKind) : StepRes :=
  match env.watchNamespaces with
  | .error e => ⟨some ("getting watched namespaces: " ++ e), st, []⟩
  | .ok nss => nsLoop env gvks st nss

/-- The loop of processAllResources over the discovered resources:
cluster-scoped kinds are processed immediately, one by one, their errors
collected (Go: multierr, modelled as the list of error strings) without
stopping the loop; namespaced kinds are collected for later processing.
Returns (errors, state, trace, namespaced kinds). -/
def processResourcesLoop (env : Env) (st : GRState) :
    List APIResource →
    List String × GRState × List Event × List GroupVersionKind
  | [] => ([], st, [], [])
  | r :: rest =>
    if r.namespaced then
      let l := processResourcesLoop env st rest
      (l.1, l.2.1, l.2.2.1, r.gvk :: l.2.2.2)
    else
      let c := processClusterscopedResources env r.gvk st
      let l := processResourcesLoop env c.st rest
      (match c.err with
        | some e =>
          ("processing cluster scoped resources of type " ++ r.gvk.kind
            ++ ": " ++ e) :: l.1
        | none => l.1,
        l.2.1, c.tr ++ l.2.2.1, l.2.2.2)

/-- processAllResources processes every cluster-scoped kind (collecting
their errors) and then all namespaced kinds; a namespaced-processing error
is appended to the collected errors.  The multierr result is modelled as
the list of error strings (empty means a nil error). -/
def processAllResources (env : Env) (st : GRState)
    (resources : List APIResource) : List String × GRState × List Event :=
  let l := processResourcesLoop env st resources
  let rns := processNamespacedResources env l.2.1 l.2.2.2
  match rns.err with
  | some e =>
    (l.1 ++ ["processing namespace scoped resources: " ++ e], rns.st,
      l.2.2.1 ++ rns.tr)
  | none => (l.1, rns.st, l.2.2.1 ++ rns.tr)

/-- The validations.Request built by handleResourceDeletions for a stale
cache entry: identity fields from the key, the namespace UID resolved
freshly from the watch-namespaces cache, and the UID stored in the cache
entry. -/
def mkDeletionRequest (env : Env) (k : validationKey) (v : validationResource) :
    Request :=
  { kind := k.kind, name := k.name, nspace := k.nspace
    nspaceUID := env.getNamespaceUID k.nspace, uid := v.uid }

/-- The loop of handleResourceDeletions over the entries of the durable
cache: entries whose key is in currentObjects are kept; for every other
entry a DeleteMetrics call is emitted and the key is removed from the
durable cache.  The first list argument is the iterated snapshot of the
cache, the second the cache being mutated. -/
def handleLoop (env : Env) (live : validationCache) :
    List (validationKey × validationResource) → validationCache →
    validationCache × List Event
  | [], ovc => (ovc, [])
  | (k, v) :: rest, ovc =>
    if live.has k then
      handleLoop env live rest ovc
    else
      let r := handleLoop env live rest (ovc.removeKey k)
      (r.1, Event.deleteMetrics k (mkDeletionRequest env k v) :: r.2)

/-- handleResourceDeletions evicts every durable-cache entry whose key was
not observed in the current pass, emitting one DeleteMetrics call per
evicted entry, and finally drains currentObjects. -/
def handleResourceDeletions (env : Env) (st : GRState) :
    GRState × List Event :=
  let r := handleLoop env st.currentObjects st.objectValidationCache
    st.objectValidationCache
  (⟨r.1, st.currentObjects.drain⟩, r.2)

/-- reconcileEverything runs one full pass: discovery (an error aborts the
pass), processing of all resources, and — only when processing produced no
error — the deletion-reclaim phase.  The watch-namespaces cache reset at
pass start has no observable effect in this model, where namespace
resolution is part of the fixed environment. -/
def reconcileEverything (env : Env) (st : GRState) : StepRes :=
  match env.apiResources with
  | .error e => ⟨some ("retrieving resources to reconcile: " ++ e), st, []⟩
  | .ok resources =>
    let p := processAllResources env st resources
    if p.1.isEmpty then
      let h := handleResourceDeletions env p.2.1
      ⟨none, h.1, p.2.2 ++ h.2⟩
    else
      ⟨some ("processing all resources: " ++ String.intercalate "; " p.1),
        p.2.1, p.2.2⟩

/-! ## Trace and page helpers -/

/-- The items carried by one server response (none for a failure). -/
def respItems : PageResp → List Obj
  | .failure _ => []
  | .page items _ => items

/-- All items of a sequence of server responses, in order. -/
def pagesItems : List PageResp → List Obj
  | [] => []
  | p :: rest => respItems p ++ pagesItems rest

/-- The validation keys of all items of a sequence of server responses. -/
def pagesKeys (prs : List PageResp) : List validationKey :=
  (pagesItems prs).map newValidationKey

/-- The durable-cache keys that processing one discovered resource can touch:
for a cluster-scoped resource, the keys of all items its listing can serve;
a namespaced resource is not processed by the cluster-scoped loop. -/
def touchedKeys (env : Env) (r : APIResource) : List validationKey :=
  if r.namespaced then [] else pagesKeys (env.pages (listKindGVK r.gvk) "")

/-- A well-formed sequence of server responses for one pagination loop:
nonempty, every response is a page, every page except the last carries a
nonempty continue token, and the last page carries the empty token. -/
def wellFormedPages : List PageResp → Bool
  | [] => false
  | [.page _ cont] => decide (cont = "")
  | .page _ cont :: rest => decide (cont ≠ "") && wellFormedPages rest
  | .failure _ :: _ => false

/-- Number of single-object validation calls for the given identity in a
trace. -/
def evalOneCallsFor (k : validationKey) : List Event → Nat
  | [] => 0
  | .evalOne k2 _ :: rest =>
    (if k2 = k then 1 else 0) + evalOneCallsFor k rest
  | _ :: rest => evalOneCallsFor k rest

/-- Number of deletion signals (DeleteMetrics calls) for the given identity
in a trace. -/
def deletionSignalsFor (k : validationKey) : List Event → Nat
  | [] => 0
  | .deleteMetrics k2 _ :: rest =>
    (if k2 = k then 1 else 0) + deletionSignalsFor k rest
  | _ :: rest => deletionSignalsFor k rest

/-- Number of occurrences of one exact event in a trace. -/
def countEvent (ev : Event) : List Event → Nat
  | [] => 0
  | e :: rest => (if e = ev then 1 else 0) + countEvent ev rest

/-- The objects passed to the per-object reconcile method, in call order,
extracted from a trace. -/
def reconciledObjs : List Event → List Obj
  | [] => []
  | .reconcileCall o :: rest => o :: reconciledObjs rest
  | _ :: rest => reconciledObjs rest

/-- Number of occurrences of one object among the reconciled objects of a
trace. -/
def reconcileCallsFor (o : Obj) (tr : List Event) : Nat :=
  ((reconciledObjs tr).filter (fun o2 => decide (o2 = o))).length

/-- An object belongs to some group of a relatedObjects map. -/
def memGroups (groups : List (String × List Obj)) (o : Obj) : Prop :=
  ∃ l os, (l, os) ∈ groups ∧ o ∈ os

/-! ## Concrete sample objects and environments

These closed instances are used to evaluate the embedded code at concrete
inputs (witnesses of the hypothesised theorems and counterexamples). -/

/-- A sample namespaced object with a resolvable app label. -/
def mkObj (name rv ns : String) : Obj :=
  { group := "apps", version := "v1", kind := "Deployment", nspace := ns
    name := name, resourceVersion := rv, uid := "uid-" ++ name
    metadataLabelsApp := .found "app1"
    specSelectorMatchLabelsApp := .notFound }

/-- A sample cluster-scoped object. -/
def mkClusterObj (name rv : String) : Obj :=
  { group := "rbac", version := "v1", kind := "ClusterRole", nspace := ""
    name := name, resourceVersion := rv, uid := "uid-" ++ name
    metadataLabelsApp := .notFound
    specSelectorMatchLabelsApp := .notFound }

/-- A baseline environment: no resources, every collaborator succeeds
trivially. -/
def envBase : Env :=
  { pages := fun _ _ => []
    apiResources := .ok []
    watchNamespaces := .ok []
    getNamespaceUID := fun _ => ""
    toTyped := fun o => .ok o
    runValidations := fun _ _ => .ok "outcome"
    runValidationsForObjects := fun _ _ => .ok "outcome" }

/-- Cluster-scoped kind A used by the concrete environments. -/
def gvkA : GroupVersionKind := { group := "", version := "v1", kind := "KindA" }

/-- Cluster-scoped kind B used by the concrete environments. -/
def gvkB : GroupVersionKind := { group := "", version := "v1", kind := "KindB" }

/-- Object served for kind A in the concrete environments. -/
def objA : Obj := mkClusterObj "alpha" "7"

/-- Object served for kind B in the concrete environments. -/
def objB : Obj := mkClusterObj "beta" "3"

/-- Environment in which kind A lists one object successfully and the
listing of kind B fails: processing the pass produces an error after the
object of kind A was recorded in the live set. -/
def envTwoKindsBadB : Env :=
  { envBase with
    apiResources := .ok [⟨gvkA, false⟩, ⟨gvkB, false⟩]
    pages := fun g _ =>
      if g = listKindGVK gvkA then [.page [objA] ""]
      else if g = listKindGVK gvkB then [.failure "boom"]
      else [] }

/-- Environment in which kinds A and B both list one object successfully:
an error-free pass. -/
def envTwoKindsOK : Env :=
  { envBase with
    apiResources := .ok [⟨gvkA, false⟩, ⟨gvkB, false⟩]
    pages := fun g _ =>
      if g = listKindGVK gvkA then [.page [objA] ""]
      else if g = listKindGVK gvkB then [.page [objB] ""]
      else [] }

/-- Environment in which the validation engine always fails: evaluation is
invoked but nothing is ever stored in the durable cache. -/
def envEvalFails : Env :=
  { envBase with
    apiResources := .ok [⟨gvkA, false⟩]
    pages := fun g _ =>
      if g = listKindGVK gvkA then [.page [objA] ""] else []
    runValidations := fun _ _ => .error "engine down" }

/-- Environment serving five items for kind A in pages of two, to exercise
the pagination loop across page boundaries. -/
def envPaged : Env :=
  { envBase with
    pages := fun g _ =>
      if g = gvkA then
        [.page [mkClusterObj "o1" "1", mkClusterObj "o2" "1"] "t1",
          .page [mkClusterObj "o3" "1", mkClusterObj "o4" "1"] "t2",
          .page [mkClusterObj "o5" "1"] ""]
      else [] }

/-- Environment for the namespaced loop: in namespace ns1 the single
namespaced kind lists one labelled object, in namespace ns2 the listing
fails, in namespace ns3 it would list another object. -/
def envNsBad2 : Env :=
  { envBase with
    watchNamespaces := .ok ["ns1", "ns2", "ns3"]
    pages := fun g ns =>
      if g = gvkA then
        if ns = "ns1" then [.page [mkObj "n1" "1" "ns1"] ""]
        else if ns = "ns2" then [.failure "boom"]
        else if ns = "ns3" then [.page [mkObj "n3" "1" "ns3"] ""]
        else []
      else [] }

/-- Cluster-scoped kind C used by the concrete environments. -/
def gvkC : GroupVersionKind := { group := "", version := "v1", kind := "KindC" }

/-- Object served for kind C in the concrete environments. -/
def objC : Obj := mkClusterObj "gamma" "2"

/-- Environment with three cluster-scoped kinds: A and C list one object
each successfully, the listing of B fails. -/
def envThreeKinds : Env :=
  { envBase with
    apiResources := .ok [⟨gvkA, false⟩, ⟨gvkB, false⟩, ⟨gvkC, false⟩]
    pages := fun g _ =>
      if g = listKindGVK gvkA then [.page [objA] ""]
      else if g = listKindGVK gvkB then [.failure "boom"]
      else if g = listKindGVK gvkC then [.page [objC] ""]
      else [] }

/-- A namespaced object with no resolvable app label on either path. -/
def objNoLabel : Obj :=
  { group := "apps", version := "v1", kind := "Deployment", nspace := "ns1"
    name := "unlabeled", resourceVersion := "5", uid := "uid-unlabeled"
    metadataLabelsApp := .notFound
    specSelectorMatchLabelsApp := .notFound }

/-- Environment whose namespaced listing serves one labelled and one
unlabelled object in namespace ns1. -/
def envUnlabeled : Env :=
  { envBase with
    watchNamespaces := .ok ["ns1"]
    pages := fun g ns =>
      if g = gvkA ∧ ns = "ns1" then
        [.page [mkObj "good" "1" "ns1", objNoLabel] ""]
      else [] }

/-- A concrete reconciler state for exercising the deletion-reclaim phase:
the durable cache holds entries for objA and objB, but only objA was
observed in the current pass. -/
def stReclaim : GRState :=
  { objectValidationCache :=
      [(newValidationKey objA, newValidationResource "7" "uA" "x"),
        (newValidationKey objB, newValidationResource "3" "uB" "y")]
    currentObjects :=
      [(newValidationKey objA, newValidationResource "" "" "")] }

/-- The empty cache, used as a concrete input. -/
def vcEmptyW : validationCache := []

/-- A concrete cache holding a stale revision for objA (whose current
revision is 7). -/
def vcStaleW : validationCache :=
  [(newValidationKey objA, newValidationResource "6" "u" "x")]

/-- A concrete cache holding objA's current revision. -/
def vcFreshW : validationCache :=
  [(newValidationKey objA, newValidationResource "7" "u" "x")]

/-! ## Basic lemmas about the versioned cache -/

theorem lookupKey_removeKey_self (vc : validationCache) (k : validationKey) :
    (vc.removeKey k).lookupKey k = none := by
  induction vc with
  | nil => rfl
  | cons p rest ih =>
    obtain ⟨k2, v⟩ := p
    by_cases h : k2 = k <;>
      simp [validationCache.removeKey, validationCache.lookupKey, h, ih]

theorem lookupKey_removeKey_ne (vc : validationCache) (k k2 : validationKey)
    (h : k2 ≠ k) : (vc.removeKey k).lookupKey k2 = vc.lookupKey k2 := by
  induction vc with
  | nil => rfl
  | cons p rest ih =>
    obtain ⟨k3, v⟩ := p
    by_cases h3 : k3 = k
    · subst h3
      simp [validationCache.removeKey, validationCache.lookupKey,
        (Ne.symm h), ih]
    · by_cases h4 : k3 = k2 <;>
        simp [validationCache.removeKey, validationCache.lookupKey, h, h3, h4,
          ih]

theorem removeKey_eq_of_lookupKey_none (vc : validationCache)
    (k : validationKey) (h : vc.lookupKey k = none) : vc.removeKey k = vc := by
  induction vc with
  | nil => rfl
  | cons p rest ih =>
    obtain ⟨k2, v⟩ := p
    by_cases h2 : k2 = k
    · simp [validationCache.lookupKey, h2] at h
    · simp [validationCache.lookupKey, h2] at h
      simp [validationCache.removeKey, h2, ih h]

theorem lookupKey_storeKey_self (vc : validationCache) (k : validationKey)
    (v : validationResource) : (vc.storeKey k v).lookupKey k = some v := by
  simp [validationCache.storeKey, validationCache.lookupKey]

theorem lookupKey_storeKey_ne (vc : validationCache) (k k2 : validationKey)
    (v : validationResource) (h : k2 ≠ k) :
    (vc.storeKey k v).lookupKey k2 = vc.lookupKey k2 := by
  simp [validationCache.storeKey, validationCache.lookupKey, Ne.symm h,
    lookupKey_removeKey_ne vc k k2 h]

theorem length_storeKey_of_none (vc : validationCache) (k : validationKey)
    (v : validationResource) (h : vc.lookupKey k = none) :
    (vc.storeKey k v).length = vc.length + 1 := by
  simp [validationCache.storeKey, removeKey_eq_of_lookupKey_none vc k h,
    List.length_cons]

theorem retrieve_store_self (vc : validationCache) (o : Obj) (out : String) :
    (vc.store o out).retrieve o =
      some (newValidationResource o.resourceVersion o.uid out) := by
  simp [validationCache.store, validationCache.retrieve, lookupKey_storeKey_self]

theorem lookupKey_store_ne (vc : validationCache) (o : Obj) (out : String)
    (k : validationKey) (h : k ≠ newValidationKey o) :
    (vc.store o out).lookupKey k = vc.lookupKey k := by
  simp [validationCache.store, lookupKey_storeKey_ne _ _ _ _ h]

/-! ## Claim C1 -/

/-- C1: for every cache state and object, the already-validated check
returns false and leaves the cache unchanged when no entry exists for the
object's identity; when an entry exists with a stored revision differing
from the object's current revision, it returns false, the entry is removed
(and no other binding changes); and when an entry exists with an equal
stored revision it returns true and leaves the cache unchanged. -/
theorem objectAlreadyValidated_cases (vc : validationCache) (o : Obj) :
    (vc.retrieve o = none →
      vc.objectAlreadyValidated o = (false, vc)) ∧
    (∀ r, vc.retrieve o = some r → r.version ≠ o.resourceVersion →
      (vc.objectAlreadyValidated o).1 = false ∧
      (vc.objectAlreadyValidated o).2.retrieve o = none ∧
      ∀ k, k ≠ newValidationKey o →
        (vc.objectAlreadyValidated o).2.lookupKey k = vc.lookupKey k) ∧
    (∀ r, vc.retrieve o = some r → r.version = o.resourceVersion →
      vc.objectAlreadyValidated o = (true, vc)) := by
  refine ⟨?_, ?_, ?_⟩
  · intro h
    simp [validationCache.objectAlreadyValidated, h]
  · intro r h hne
    refine ⟨?_, ?_, ?_⟩
    · simp [validationCache.objectAlreadyValidated, h, hne]
    · simp [validationCache.objectAlreadyValidated, h, hne]
      simp [validationCache.remove, validationCache.retrieve,
        lookupKey_removeKey_self]
    · intro k hk
      simp [validationCache.objectAlreadyValidated, h, hne,
        validationCache.remove, lookupKey_removeKey_ne _ _ _ hk]
  · intro r h heq
    simp [validationCache.objectAlreadyValidated, h, heq]

/-- Witness for C1: the three cases evaluated at concrete caches — the empty
cache, a cache holding a stale revision for objA, and a cache holding objA's
current revision. -/
theorem objectAlreadyValidated_cases_witness :
    vcEmptyW.objectAlreadyValidated objA = (false, vcEmptyW) ∧
    ((vcStaleW.objectAlreadyValidated objA).1 = false ∧
      (vcStaleW.objectAlreadyValidated objA).2.retrieve objA = none ∧
      (vcStaleW.objectAlreadyValidated objA).2.lookupKey (newValidationKey objB) =
        vcStaleW.lookupKey (newValidationKey objB)) ∧
    vcFreshW.objectAlreadyValidated objA = (true, vcFreshW) := by
  refine ⟨(objectAlreadyValidated_cases vcEmptyW objA).1 (by decide),
    ⟨?_, ?_, ?_⟩, ?_⟩
  · exact ((objectAlreadyValidated_cases vcStaleW objA).2.1
      (newValidationResource "6" "u" "x") (by decide) (by decide)).1
  · exact ((objectAlreadyValidated_cases vcStaleW objA).2.1
      (newValidationResource "6" "u" "x") (by decide) (by decide)).2.1
  · exact ((objectAlreadyValidated_cases vcStaleW objA).2.1
      (newValidationResource "6" "u" "x") (by decide) (by decide)).2.2
      (newValidationKey objB) (by decide)
  · exact (objectAlreadyValidated_cases vcFreshW objA).2.2
      (newValidationResource "7" "u" "x") (by decide) (by decide)

/-! ## Claim C2 -/

/-- C2 counterexample: in the concrete pass driven by envTwoKindsBadB the
processing of cluster-scoped kind B fails, the pass ends with an aggregated
error, and the LiveSet (currentObjects) still holds the entry recorded for
kind A's object: it is not drained at the end of the pass, so that entry is
still present when the next pass begins. -/
theorem reconcileEverything_error_keeps_liveset :
    (reconcileEverything envTwoKindsBadB ⟨[], []⟩).err.isSome = true ∧
    (reconcileEverything envTwoKindsBadB ⟨[], []⟩).st.currentObjects ≠ [] := by
  decide

/-- C2 (amended): the LiveSet is drained to empty at the end of every pass
that completes without error; in a pass where per-kind or namespaced
processing produced errors, the engine returns before the deletion-reclaim
phase and the LiveSet is not drained. -/
theorem reconcileEverything_ok_drains_liveset (env : Env) (st : GRState)
    (h : (reconcileEverything env st).err = none) :
    (reconcileEverything env st).st.currentObjects = [] := by
  rcases henv : env.apiResources with e | rs
  · simp [reconcileEverything, henv] at h
  · by_cases he : (processAllResources env st rs).1.isEmpty
    · simp [reconcileEverything, henv, he, handleResourceDeletions,
        validationCache.drain]
    · simp [reconcileEverything, henv, he] at h

/-- Witness for the amended C2: the concrete error-free pass of
envTwoKindsOK drains the LiveSet. -/
theorem reconcileEverything_ok_drains_liveset_witness :
    (reconcileEverything envTwoKindsOK ⟨[], []⟩).err = none ∧
    (reconcileEverything envTwoKindsOK ⟨[], []⟩).st.currentObjects = [] :=
  ⟨by decide,
    reconcileEverything_ok_drains_liveset envTwoKindsOK ⟨[], []⟩ (by decide)⟩

/-! ## Lemmas about the deletion-reclaim loop -/

theorem handleLoop_lookup (env : Env) (live : validationCache)
    (l : List (validationKey × validationResource)) (ovc : validationCache)
    (k : validationKey) :
    (handleLoop env live l ovc).1.lookupKey k =
      if live.has k = true then ovc.lookupKey k
      else if k ∈ List.map Prod.fst l then none
      else ovc.lookupKey k := by
  induction l generalizing ovc with
  | nil => simp [handleLoop]
  | cons p rest ih =>
    obtain ⟨k1, v1⟩ := p
    by_cases hl1 : live.has k1 = true
    · simp only [handleLoop, hl1, if_pos]
      rw [ih]
      by_cases hk : live.has k = true
      · simp [hk]
      · by_cases hm : k = k1
        · exact absurd (hm ▸ hl1) hk
        · by_cases hr : k ∈ List.map Prod.fst rest <;>
            simp [hk, hm, hr, List.mem_cons]
    · simp only [handleLoop, hl1, if_neg, Bool.not_eq_true]
      rw [ih]
      by_cases hk : live.has k = true
      · have hne : k ≠ k1 := fun h => hl1 (h ▸ hk)
        simp [hk, lookupKey_removeKey_ne ovc k1 k hne]
      · by_cases hm : k = k1
        · subst hm
          by_cases hr : k ∈ List.map Prod.fst rest
          · simp [hk, hr]
          · simp [hk, hr, lookupKey_removeKey_self]
        · by_cases hr : k ∈ List.map Prod.fst rest
          · simp [hk, hm, hr]
          · simp [hk, hm, hr, lookupKey_removeKey_ne ovc k1 k hm]

theorem countEvent_deleteMetrics_le (k : validationKey) (req : Request)
    (tr : List Event) :
    countEvent (Event.deleteMetrics k req) tr ≤ deletionSignalsFor k tr := by
  induction tr with
  | nil => simp [countEvent, deletionSignalsFor]
  | cons e rest ih =>
    cases e with
    | deleteMetrics k2 req2 =>
      by_cases hk2 : k2 = k
      · subst hk2
        by_cases hr : req2 = req
        · subst hr
          simp only [countEvent, deletionSignalsFor, if_pos rfl]
          omega
        · have hev : Event.deleteMetrics k2 req2 ≠ Event.deleteMetrics k2 req := by
            intro hcon
            injection hcon with h1 h2
            exact hr h2
          simp only [countEvent, deletionSignalsFor, if_neg hev, if_pos rfl]
          omega
      · have hev : Event.deleteMetrics k2 req2 ≠ Event.deleteMetrics k req := by
          intro hcon
          injection hcon with h1 h2
          exact hk2 h1
        simp only [countEvent, deletionSignalsFor, if_neg hev, if_neg hk2]
        omega
    | listCall g n => simpa [countEvent, deletionSignalsFor] using ih
    | reconcileCall o => simpa [countEvent, deletionSignalsFor] using ih
    | evalOne k2 n => simpa [countEvent, deletionSignalsFor] using ih
    | evalBatch a b c => simpa [countEvent, deletionSignalsFor] using ih

theorem handleLoop_signals_zero_of_not_mem (env : Env)
    (live : validationCache) (l : List (validationKey × validationResource))
    (k : validationKey) :
    ∀ ovc : validationCache, k ∉ List.map Prod.fst l →
      deletionSignalsFor k (handleLoop env live l ovc).2 = 0 := by
  induction l with
  | nil => intro ovc _; simp [handleLoop, deletionSignalsFor]
  | cons p rest ih =>
    intro ovc h
    obtain ⟨k1, v1⟩ := p
    have hne : k1 ≠ k := by
      intro hcon
      exact h (by simp [hcon])
    have hrest : k ∉ List.map Prod.fst rest := by
      intro hcon
      exact h (by simp [hcon])
    by_cases hl1 : live.has k1 = true
    · simp only [handleLoop, hl1, if_pos]
      exact ih ovc hrest
    · simp only [handleLoop, hl1, if_neg, Bool.not_eq_true]
      simp [deletionSignalsFor, hne, ih _ hrest]

theorem handleLoop_signals_zero_of_live (env : Env) (live : validationCache)
    (l : List (validationKey × validationResource)) (k : validationKey)
    (hlive : live.has k = true) :
    ∀ ovc : validationCache,
      deletionSignalsFor k (handleLoop env live l ovc).2 = 0 := by
  induction l with
  | nil => intro ovc; simp [handleLoop, deletionSignalsFor]
  | cons p rest ih =>
    intro ovc
    obtain ⟨k1, v1⟩ := p
    by_cases hl1 : live.has k1 = true
    · simp only [handleLoop, hl1, if_pos]
      exact ih _
    · have hne : k1 ≠ k := fun h => hl1 (h ▸ hlive)
      simp only [handleLoop, hl1, if_neg, Bool.not_eq_true]
      simp [deletionSignalsFor, hne, ih]

theorem handleLoop_signals_one (env : Env) (live : validationCache)
    (l : List (validationKey × validationResource)) (k : validationKey)
    (v : validationResource) (hlive : live.has k = false) :
    ∀ ovc : validationCache, (List.map Prod.fst l).Nodup → (k, v) ∈ l →
      deletionSignalsFor k (handleLoop env live l ovc).2 = 1 ∧
      countEvent (Event.deleteMetrics k (mkDeletionRequest env k v))
        (handleLoop env live l ovc).2 = 1 := by
  induction l with
  | nil => intro ovc _ hmem; exact absurd hmem (by simp)
  | cons p rest ih =>
    intro ovc hnd hmem
    obtain ⟨k1, v1⟩ := p
    rw [List.map_cons] at hnd
    obtain ⟨hnd1, hndr⟩ := List.nodup_cons.mp hnd
    rcases List.mem_cons.mp hmem with hhead | htail
    · have hk : k = k1 := congrArg Prod.fst hhead
      have hv : v = v1 := congrArg Prod.snd hhead
      subst hk
      subst hv
      have hz := handleLoop_signals_zero_of_not_mem env live rest k
        (ovc.removeKey k) hnd1
      have hc := countEvent_deleteMetrics_le k (mkDeletionRequest env k v)
        (handleLoop env live rest (ovc.removeKey k)).2
      rw [hz] at hc
      have hc0 := Nat.le_zero.mp hc
      constructor
      · simp only [handleLoop, hlive, Bool.false_eq_true, if_neg,
          Bool.not_eq_true]
        simp [deletionSignalsFor, hz]
      · simp only [handleLoop, hlive, Bool.false_eq_true, if_neg,
          Bool.not_eq_true]
        simp [countEvent, hc0]
    · have hkr : k ∈ List.map Prod.fst rest :=
        List.mem_map_of_mem Prod.fst htail
      have hne : k1 ≠ k := fun h => hnd1 (h ▸ hkr)
      by_cases hl1 : live.has k1 = true
      · simp only [handleLoop, hl1, if_pos]
        exact ih _ hndr htail
      · have hih := ih (ovc.removeKey k1) hndr htail
        simp only [handleLoop, hl1, if_neg, Bool.not_eq_true]
        constructor
        · simp [deletionSignalsFor, hne, hih.1]
        · have hev : Event.deleteMetrics k1 (mkDeletionRequest env k1 v1) ≠
              Event.deleteMetrics k (mkDeletionRequest env k v) := by
            intro hcon
            injection hcon with h1 h2
            exact hne h1
          simp [countEvent, hev, hih.2]

/-! ## Claim C3 -/

/-- C3: when the deletion-reclaim phase runs at the end of a pass, every
identity present in the durable cache but absent from the pass's LiveSet
receives exactly one deletion signal — carrying the identity, the cached
owner identifier and the freshly resolved namespace identifier — and is
removed from the durable cache; an identity present in the LiveSet keeps
its entry untouched and receives no deletion signal. -/
theorem handleResourceDeletions_spec (env : Env) (st : GRState)
    (k : validationKey) (v : validationResource)
    (hnd : (List.map Prod.fst st.objectValidationCache).Nodup)
    (hmem : (k, v) ∈ st.objectValidationCache) :
    (st.currentObjects.has k = false →
      deletionSignalsFor k (handleResourceDeletions env st).2 = 1 ∧
      countEvent
        (Event.deleteMetrics k
          { kind := k.kind, name := k.name, nspace := k.nspace
            nspaceUID := env.getNamespaceUID k.nspace, uid := v.uid })
        (handleResourceDeletions env st).2 = 1 ∧
      (handleResourceDeletions env st).1.objectValidationCache.lookupKey k =
        none) ∧
    (st.currentObjects.has k = true →
      deletionSignalsFor k (handleResourceDeletions env st).2 = 0 ∧
      (handleResourceDeletions env st).1.objectValidationCache.lookupKey k =
        st.objectValidationCache.lookupKey k) := by
  have h2 := handleLoop_lookup env st.currentObjects st.objectValidationCache
    st.objectValidationCache k
  constructor
  · intro hlive
    have h1 := handleLoop_signals_one env st.currentObjects
      st.objectValidationCache k v hlive st.objectValidationCache hnd hmem
    have hkmem : k ∈ List.map Prod.fst st.objectValidationCache :=
      List.mem_map_of_mem Prod.fst hmem
    refine ⟨h1.1, h1.2, ?_⟩
    show (handleLoop env st.currentObjects st.objectValidationCache
      st.objectValidationCache).1.lookupKey k = none
    rw [h2]
    simp [hlive, hkmem]
  · intro hlive
    have h0 := handleLoop_signals_zero_of_live env st.currentObjects
      st.objectValidationCache k hlive st.objectValidationCache
    refine ⟨h0, ?_⟩
    show (handleLoop env st.currentObjects st.objectValidationCache
      st.objectValidationCache).1.lookupKey k =
      st.objectValidationCache.lookupKey k
    rw [h2]
    simp [hlive]

/-- Witness for C3: in the concrete state stReclaim, objB's identity (stale)
gets exactly one deletion signal with its cached UID and is evicted, while
objA's identity (live) keeps its entry. -/
theorem handleResourceDeletions_spec_witness :
    deletionSignalsFor (newValidationKey objB)
      (handleResourceDeletions envBase stReclaim).2 = 1 ∧
    countEvent
      (Event.deleteMetrics (newValidationKey objB)
        { kind := "ClusterRole", name := "beta", nspace := ""
          nspaceUID := "", uid := "uB" })
      (handleResourceDeletions envBase stReclaim).2 = 1 ∧
    (handleResourceDeletions envBase stReclaim).1.objectValidationCache.lookupKey
      (newValidationKey objB) = none ∧
    deletionSignalsFor (newValidationKey objA)
      (handleResourceDeletions envBase stReclaim).2 = 0 ∧
    (handleResourceDeletions envBase stReclaim).1.objectValidationCache.lookupKey
      (newValidationKey objA) =
      stReclaim.objectValidationCache.lookupKey (newValidationKey objA) := by
  have hb := handleResourceDeletions_spec envBase stReclaim
    (newValidationKey objB) (newValidationResource "3" "uB" "y")
    (by decide) (by decide)
  have ha := handleResourceDeletions_spec envBase stReclaim
    (newValidationKey objA) (newValidationResource "7" "uA" "x")
    (by decide) (by decide)
  exact ⟨(hb.1 (by decide)).1, (hb.1 (by decide)).2.1, (hb.1 (by decide)).2.2,
    (ha.2 (by decide)).1, (ha.2 (by decide)).2⟩

/-! ## Lemmas about the single-object reconcile path -/

theorem reconcile_current_eq (env : Env) (st : GRState) (o : Obj) :
    (reconcile env st o).st.currentObjects = st.currentObjects.store o "" := by
  unfold reconcile
  by_cases hva : (st.objectValidationCache.objectAlreadyValidated o).1
  · simp [hva]
  · cases ht : env.toTyped o with
    | error e => simp [hva, ht]
    | ok t =>
      cases hr : env.runValidations t
          (if o.nspace.length > 0 then env.getNamespaceUID o.nspace else "") with
      | error e => simp [hva, ht, hr]
      | ok out => simp [hva, ht, hr]

theorem reconcile_has_current (env : Env) (st : GRState) (o : Obj) :
    (reconcile env st o).st.currentObjects.has (newValidationKey o) = true := by
  rw [reconcile_current_eq]
  simp [validationCache.has, validationCache.store, lookupKey_storeKey_self]

theorem objectAlreadyValidated_true_elim (vc : validationCache) (o : Obj)
    (h : (vc.objectAlreadyValidated o).1 = true) :
    (vc.objectAlreadyValidated o).2 = vc ∧
    ∃ r, vc.retrieve o = some r ∧ r.version = o.resourceVersion := by
  cases hret : vc.retrieve o with
  | none => simp [validationCache.objectAlreadyValidated, hret] at h
  | some r =>
    by_cases hv : r.version = o.resourceVersion
    · exact ⟨by simp [validationCache.objectAlreadyValidated, hret, hv],
        r, rfl, hv⟩
    · simp [validationCache.objectAlreadyValidated, hret, hv] at h

theorem reconcile_ok_cached (env : Env) (st : GRState) (o : Obj)
    (h : (reconcile env st o).err = none) :
    ∃ r, (reconcile env st o).st.objectValidationCache.lookupKey
        (newValidationKey o) = some r ∧ r.version = o.resourceVersion := by
  by_cases hva : (st.objectValidationCache.objectAlreadyValidated o).1
  · obtain ⟨heq, r, hret, hv⟩ :=
      objectAlreadyValidated_true_elim st.objectValidationCache o hva
    refine ⟨r, ?_, hv⟩
    have : (reconcile env st o).st.objectValidationCache =
        (st.objectValidationCache.objectAlreadyValidated o).2 := by
      unfold reconcile
      simp [hva]
    rw [this, heq]
    exact hret
  · cases ht : env.toTyped o with
    | error e =>
      unfold reconcile at h
      simp [hva, ht] at h
    | ok t =>
      cases hr : env.runValidations t
          (if o.nspace.length > 0 then env.getNamespaceUID o.nspace else "") with
      | error e =>
        unfold reconcile at h
        simp [hva, ht, hr] at h
      | ok out =>
        refine ⟨newValidationResource o.resourceVersion o.uid out, ?_, rfl⟩
        have : (reconcile env st o).st.objectValidationCache =
            (st.objectValidationCache.objectAlreadyValidated o).2.store o out := by
          unfold reconcile
          simp [hva, ht, hr]
        rw [this]
        exact retrieve_store_self _ o out

theorem reconcile_skips_if_cached (env : Env) (st : GRState) (o : Obj)
    (r : validationResource) (hret : st.objectValidationCache.retrieve o = some r)
    (hv : r.version = o.resourceVersion) :
    reconcile env st o =
      ⟨none, ⟨st.objectValidationCache, st.currentObjects.store o ""⟩, []⟩ := by
  unfold reconcile
  simp [validationCache.objectAlreadyValidated, hret, hv]

theorem reconcile_evalCalls_le_one (env : Env) (st : GRState) (o : Obj)
    (k : validationKey) :
    evalOneCallsFor k (reconcile env st o).tr ≤ 1 := by
  unfold reconcile
  by_cases hva : (st.objectValidationCache.objectAlreadyValidated o).1
  · simp [hva, evalOneCallsFor]
  · cases ht : env.toTyped o with
    | error e => simp [hva, ht, evalOneCallsFor]
    | ok t =>
      cases hr : env.runValidations t
          (if o.nspace.length > 0 then env.getNamespaceUID o.nspace else "") with
      | error e =>
        simp only [hva, ht, hr]
        simp [evalOneCallsFor]
        split <;> omega
      | ok out =>
        simp only [hva, ht, hr]
        simp [evalOneCallsFor]
        split <;> omega

/-! ## Claim C4 -/

/-- C4 counterexample: under envEvalFails the object objA is served with the
same identity and revision in two consecutive passes, but the validation
engine's call fails, so nothing is stored in the durable cache and the
evaluation entry point is invoked for objA's identity once in each pass —
twice in total across the two passes, refuting "at most once". -/
theorem eval_twice_when_first_call_fails :
    evalOneCallsFor (newValidationKey objA)
      (reconcileEverything envEvalFails ⟨[], []⟩).tr +
    evalOneCallsFor (newValidationKey objA)
      (reconcileEverything envEvalFails
        (reconcileEverything envEvalFails ⟨[], []⟩).st).tr = 2 := by
  decide

/-- C4 (amended): for an object reconciled in one pass whose reconcile
completes without error, and whose identity and revision are unchanged when
it is reconciled again in the next pass (after the deletion-reclaim phase
ran between the passes), the evaluation entry point is invoked at most once
in total across the two passes: the second pass skips it because the stored
revision matches. -/
theorem reconcile_at_most_once_across_passes (env : Env) (s0 : GRState)
    (o : Obj) (h : (reconcile env s0 o).err = none) :
    evalOneCallsFor (newValidationKey o) (reconcile env s0 o).tr +
    evalOneCallsFor (newValidationKey o)
      (reconcile env (handleResourceDeletions env (reconcile env s0 o).st).1
        o).tr ≤ 1 := by
  obtain ⟨r, hlook, hv⟩ := reconcile_ok_cached env s0 o h
  have hhas := reconcile_has_current env s0 o
  have hpres : (handleResourceDeletions env
      (reconcile env s0 o).st).1.objectValidationCache.lookupKey
        (newValidationKey o) =
      (reconcile env s0 o).st.objectValidationCache.lookupKey
        (newValidationKey o) := by
    show (handleLoop env (reconcile env s0 o).st.currentObjects
      (reconcile env s0 o).st.objectValidationCache
      (reconcile env s0 o).st.objectValidationCache).1.lookupKey
        (newValidationKey o) = _
    rw [handleLoop_lookup]
    simp [hhas]
  have hret : (handleResourceDeletions env
      (reconcile env s0 o).st).1.objectValidationCache.retrieve o = some r := by
    show (handleResourceDeletions env
      (reconcile env s0 o).st).1.objectValidationCache.lookupKey
        (newValidationKey o) = some r
    rw [hpres]
    exact hlook
  have hskip := reconcile_skips_if_cached env
    (handleResourceDeletions env (reconcile env s0 o).st).1 o r hret hv
  rw [hskip]
  have h1 := reconcile_evalCalls_le_one env s0 o (newValidationKey o)
  simp [evalOneCallsFor]
  omega

/-- Witness for the amended C4: a concrete successful reconcile of objA
followed by a second pass invokes evaluation at most once in total. -/
theorem reconcile_at_most_once_across_passes_witness :
    (reconcile envBase ⟨[], []⟩ objA).err = none ∧
    evalOneCallsFor (newValidationKey objA) (reconcile envBase ⟨[], []⟩ objA).tr +
      evalOneCallsFor (newValidationKey objA)
        (reconcile envBase
          (handleResourceDeletions envBase
            (reconcile envBase ⟨[], []⟩ objA).st).1 objA).tr ≤ 1 :=
  ⟨by decide,
    reconcile_at_most_once_across_passes envBase ⟨[], []⟩ objA (by decide)⟩

/-! ## Lemmas about the group reconcile path -/

theorem objectAlreadyValidated_of_none (vc : validationCache) (o : Obj)
    (h : vc.retrieve o = none) : vc.objectAlreadyValidated o = (false, vc) := by
  simp [validationCache.objectAlreadyValidated, h]

theorem partitionNonValidated_of_uncached (objs : List Obj) :
    ∀ st : GRState,
      (∀ o ∈ objs, st.objectValidationCache.lookupKey (newValidationKey o) =
        none) →
      (partitionNonValidated st objs).2 = objs ∧
      (partitionNonValidated st objs).1.objectValidationCache =
        st.objectValidationCache := by
  induction objs with
  | nil => intro st _; simp [partitionNonValidated]
  | cons o rest ih =>
    intro st h
    have hnone : st.objectValidationCache.retrieve o = none :=
      h o (by simp)
    have hva := objectAlreadyValidated_of_none st.objectValidationCache o hnone
    have hrest := ih ⟨st.objectValidationCache, st.currentObjects.store o ""⟩
      (fun o2 ho2 => h o2 (by simp [ho2]))
    simp only [partitionNonValidated, hva]
    exact ⟨by simp [hrest.1], by simp [hrest.2]⟩

theorem foldl_store_lookup_notmem (outcome : String) (objs : List Obj) :
    ∀ (vc : validationCache) (k : validationKey),
      k ∉ objs.map newValidationKey →
      (objs.foldl (fun vc o => vc.store o outcome) vc).lookupKey k =
        vc.lookupKey k := by
  induction objs with
  | nil => intro vc k _; rfl
  | cons o rest ih =>
    intro vc k hk
    have hne : k ≠ newValidationKey o := by
      intro hcon
      exact hk (by simp [hcon])
    have hrest : k ∉ rest.map newValidationKey := by
      intro hcon
      exact hk (by simp [hcon])
    simp only [List.foldl_cons]
    rw [ih _ k hrest]
    exact lookupKey_store_ne vc o outcome k hne

theorem foldl_store_lookup_mem (outcome : String) (objs : List Obj) :
    ∀ vc : validationCache, (objs.map newValidationKey).Nodup →
      ∀ o ∈ objs,
        (objs.foldl (fun vc o => vc.store o outcome) vc).lookupKey
          (newValidationKey o) =
          some (newValidationResource o.resourceVersion o.uid outcome) := by
  induction objs with
  | nil => intro vc _ o ho; exact absurd ho (by simp)
  | cons o1 rest ih =>
    intro vc hnd o ho
    rw [List.map_cons] at hnd
    obtain ⟨hnd1, hndr⟩ := List.nodup_cons.mp hnd
    rcases List.mem_cons.mp ho with hhead | htail
    · subst hhead
      simp only [List.foldl_cons]
      rw [foldl_store_lookup_notmem outcome rest _ _ hnd1]
      exact retrieve_store_self vc o outcome
    · simp only [List.foldl_cons]
      exact ih _ hndr o htail

theorem foldl_store_length (outcome : String) (objs : List Obj) :
    ∀ vc : validationCache, (objs.map newValidationKey).Nodup →
      (∀ o ∈ objs, vc.lookupKey (newValidationKey o) = none) →
      (objs.foldl (fun vc o => vc.store o outcome) vc).length =
        vc.length + objs.length := by
  induction objs with
  | nil => intro vc _ _; simp
  | cons o1 rest ih =>
    intro vc hnd hfresh
    rw [List.map_cons] at hnd
    obtain ⟨hnd1, hndr⟩ := List.nodup_cons.mp hnd
    have h1 : vc.lookupKey (newValidationKey o1) = none :=
      hfresh o1 (by simp)
    have hfresh2 : ∀ o ∈ rest,
        (vc.store o1 outcome).lookupKey (newValidationKey o) = none := by
      intro o ho
      have hne : newValidationKey o ≠ newValidationKey o1 := by
        intro hcon
        exact hnd1 (hcon ▸ List.mem_map_of_mem newValidationKey ho)
      rw [lookupKey_store_ne vc o1 outcome _ hne]
      exact hfresh o (by simp [ho])
    have hlen : List.length (vc.store o1 outcome) = List.length vc + 1 := by
      unfold validationCache.store
      exact length_storeKey_of_none vc _ _ h1
    simp only [List.foldl_cons]
    rw [ih _ hndr hfresh2, hlen, List.length_cons]
    omega

theorem convertAll_length (env : Env) (objs : List Obj) :
    ∀ ts : List Obj, convertAll env objs = .ok ts → ts.length = objs.length := by
  induction objs with
  | nil => intro ts h; simp [convertAll] at h; simp [← h]
  | cons o rest ih =>
    intro ts h
    cases ht : env.toTyped o with
    | error e => simp [convertAll, ht] at h
    | ok t =>
      cases hrest : convertAll env rest with
      | error e => simp [convertAll, ht, hrest] at h
      | ok ts2 =>
        simp [convertAll, ht, hrest] at h
        subst h
        simp [ih ts2 hrest]

/-! ## Claim C5 -/

/-- C5: reconciling a group of k namespace-scoped objects sharing an app
label, none of which has a cache entry beforehand (and whose identities are
pairwise distinct), makes exactly one call to the batch evaluation entry
point — carrying the typed conversions of all k objects and the namespace's
resolved identifier — and on success creates exactly k durable-cache
entries, each keyed by its own object's identity and revision, all holding
the same outcome value. -/
theorem reconcileGroupOfObjects_batch (env : Env) (st : GRState)
    (objs : List Obj) (nspace : String) (ts : List Obj) (outcome : String)
    (hnc : ∀ o ∈ objs,
      st.objectValidationCache.lookupKey (newValidationKey o) = none)
    (hnd : (objs.map newValidationKey).Nodup)
    (hconv : convertAll env objs = .ok ts)
    (heval : env.runValidationsForObjects ts (env.getNamespaceUID nspace) =
      .ok outcome) :
    (reconcileGroupOfObjects env st objs nspace).err = none ∧
    (reconcileGroupOfObjects env st objs nspace).tr =
      [Event.evalBatch objs ts (env.getNamespaceUID nspace)] ∧
    ts.length = objs.length ∧
    (∀ o ∈ objs,
      (reconcileGroupOfObjects env st objs
          nspace).st.objectValidationCache.lookupKey (newValidationKey o) =
        some (newValidationResource o.resourceVersion o.uid outcome)) ∧
    (reconcileGroupOfObjects env st objs nspace).st.objectValidationCache.length =
      st.objectValidationCache.length + objs.length := by
  obtain ⟨hp2, hp1⟩ := partitionNonValidated_of_uncached objs st hnc
  have hrw : reconcileGroupOfObjects env st objs nspace =
      ⟨none,
        ⟨objs.foldl (fun vc o => vc.store o outcome) st.objectValidationCache,
          (partitionNonValidated st objs).1.currentObjects⟩,
        [Event.evalBatch objs ts (env.getNamespaceUID nspace)]⟩ := by
    simp only [reconcileGroupOfObjects]
    rw [hp2, hp1, hconv]
    dsimp only
    rw [heval]
  rw [hrw]
  refine ⟨rfl, rfl, convertAll_length env objs ts hconv, ?_, ?_⟩
  · intro o ho
    exact foldl_store_lookup_mem outcome objs st.objectValidationCache hnd o ho
  · exact foldl_store_length outcome objs st.objectValidationCache hnd hnc

/-- Witness for C5: a concrete group of two fresh namespaced objects is
evaluated in one batch call and produces two cache entries with the shared
outcome. -/
theorem reconcileGroupOfObjects_batch_witness :
    (reconcileGroupOfObjects envBase ⟨[], []⟩
        [mkObj "g1" "1" "ns1", mkObj "g2" "1" "ns1"] "ns1").err = none ∧
    (reconcileGroupOfObjects envBase ⟨[], []⟩
        [mkObj "g1" "1" "ns1", mkObj "g2" "1" "ns1"] "ns1").tr =
      [Event.evalBatch [mkObj "g1" "1" "ns1", mkObj "g2" "1" "ns1"]
        [mkObj "g1" "1" "ns1", mkObj "g2" "1" "ns1"] ""] ∧
    (reconcileGroupOfObjects envBase ⟨[], []⟩
        [mkObj "g1" "1" "ns1", mkObj "g2" "1" "ns1"]
        "ns1").st.objectValidationCache.lookupKey
      (newValidationKey (mkObj "g1" "1" "ns1")) =
      some (newValidationResource "1" "uid-g1" "outcome") ∧
    (reconcileGroupOfObjects envBase ⟨[], []⟩
        [mkObj "g1" "1" "ns1", mkObj "g2" "1" "ns1"]
        "ns1").st.objectValidationCache.length = 2 := by
  have h := reconcileGroupOfObjects_batch envBase ⟨[], []⟩
    [mkObj "g1" "1" "ns1", mkObj "g2" "1" "ns1"] "ns1"
    [mkObj "g1" "1" "ns1", mkObj "g2" "1" "ns1"] "outcome"
    (by decide) (by decide) rfl rfl
  exact ⟨h.1, h.2.1,
    by
      have := h.2.2.2.1 (mkObj "g1" "1" "ns1") (by decide)
      simpa [mkObj] using this,
    by
      have := h.2.2.2.2
      simpa using this⟩

/-! ## Lemmas about state preservation outside the touched keys -/

theorem reconcile_ovc_outside (env : Env) (st : GRState) (o : Obj)
    (k : validationKey) (hk : k ≠ newValidationKey o) :
    (reconcile env st o).st.objectValidationCache.lookupKey k =
      st.objectValidationCache.lookupKey k := by
  have hva : (st.objectValidationCache.objectAlreadyValidated o).2.lookupKey k =
      st.objectValidationCache.lookupKey k := by
    unfold validationCache.objectAlreadyValidated
    cases hret : st.objectValidationCache.retrieve o with
    | none => rfl
    | some r =>
      by_cases hv : r.version = o.resourceVersion
      · simp [hv]
      · simp [hv, validationCache.remove, lookupKey_removeKey_ne _ _ _ hk]
  unfold reconcile
  by_cases hvab : (st.objectValidationCache.objectAlreadyValidated o).1
  · simp [hvab, hva]
  · cases ht : env.toTyped o with
    | error e => simp [hvab, ht, hva]
    | ok t =>
      cases hr : env.runValidations t
          (if o.nspace.length > 0 then env.getNamespaceUID o.nspace else "") with
      | error e => simp [hvab, ht, hr, hva]
      | ok out =>
        simp [hvab, ht, hr,
          lookupKey_store_ne
            (st.objectValidationCache.objectAlreadyValidated o).2 o out k hk,
          hva]

theorem reconcileItems_ovc_outside (env : Env) (k : validationKey) :
    ∀ (items : List Obj) (st : GRState),
      k ∉ items.map newValidationKey →
      (reconcileItems env st items).st.objectValidationCache.lookupKey k =
        st.objectValidationCache.lookupKey k := by
  intro items
  induction items with
  | nil => intro st _; rfl
  | cons o rest ih =>
    intro st h
    have hk : k ≠ newValidationKey o := by
      intro hcon
      exact h (by simp [hcon])
    have hrest : k ∉ rest.map newValidationKey := by
      intro hcon
      exact h (by simp [hcon])
    unfold reconcileItems
    cases hr : (reconcile env st o).err with
    | some e =>
      simp only [hr]
      exact reconcile_ovc_outside env st o k hk
    | none =>
      simp only [hr]
      rw [ih _ hrest]
      exact reconcile_ovc_outside env st o k hk

theorem paginatedListLoop_ovc_outside (env : Env) (gvk : GroupVersionKind)
    (nspace : String) (k : validationKey) :
    ∀ (prs : List PageResp) (st : GRState),
      k ∉ pagesKeys prs →
      (paginatedListLoop env gvk nspace st
          prs).st.objectValidationCache.lookupKey k =
        st.objectValidationCache.lookupKey k := by
  intro prs
  induction prs with
  | nil => intro st _; rfl
  | cons p rest ih =>
    intro st h
    cases p with
    | failure msg => rfl
    | page items cont =>
      have hitems : k ∉ items.map newValidationKey := by
        intro hcon
        exact h (by simp [pagesKeys, pagesItems, respItems, hcon])
      have hrest : k ∉ pagesKeys rest := by
        intro hcon
        simp only [pagesKeys, pagesItems, respItems] at hcon h
        exact h (by simp [hcon])
      unfold paginatedListLoop
      cases hr : (reconcileItems env st items).err with
      | some e =>
        simp only [hr]
        exact reconcileItems_ovc_outside env k items st hitems
      | none =>
        simp only [hr]
        by_cases hc : cont = ""
        · simp only [hc, if_pos rfl]
          exact reconcileItems_ovc_outside env k items st hitems
        · simp only [if_neg hc]
          rw [ih _ hrest]
          exact reconcileItems_ovc_outside env k items st hitems

theorem processObjectInstances_st (env : Env) (gvk : GroupVersionKind)
    (nspace : String) (st : GRState) :
    (processObjectInstances env gvk nspace st).st =
      (paginatedList env (listKindGVK gvk) nspace st).st := by
  unfold processObjectInstances
  cases hr : (paginatedList env (listKindGVK gvk) nspace st).err <;> simp [hr]

theorem processObjectInstances_tr (env : Env) (gvk : GroupVersionKind)
    (nspace : String) (st : GRState) :
    (processObjectInstances env gvk nspace st).tr =
      (paginatedList env (listKindGVK gvk) nspace st).tr := by
  unfold processObjectInstances
  cases hr : (paginatedList env (listKindGVK gvk) nspace st).err <;> simp [hr]

theorem processClusterscoped_ovc_outside (env : Env) (gvk : GroupVersionKind)
    (st : GRState) (k : validationKey)
    (h : k ∉ pagesKeys (env.pages (listKindGVK gvk) "")) :
    (processClusterscopedResources env gvk
        st).st.objectValidationCache.lookupKey k =
      st.objectValidationCache.lookupKey k := by
  unfold processClusterscopedResources
  rw [processObjectInstances_st]
  exact paginatedListLoop_ovc_outside env (listKindGVK gvk) "" k _ st h

theorem processResourcesLoop_ovc_outside (env : Env) (k : validationKey) :
    ∀ (l : List APIResource) (st : GRState),
      (∀ r ∈ l, k ∉ touchedKeys env r) →
      (processResourcesLoop env st l).2.1.objectValidationCache.lookupKey k =
        st.objectValidationCache.lookupKey k := by
  intro l
  induction l with
  | nil => intro st _; rfl
  | cons r rest ih =>
    intro st h
    have hr := h r (by simp)
    have hrest : ∀ r2 ∈ rest, k ∉ touchedKeys env r2 :=
      fun r2 h2 => h r2 (by simp [h2])
    by_cases hn : r.namespaced
    · simp only [processResourcesLoop]
      rw [if_pos hn]
      exact ih _ hrest
    · simp only [processResourcesLoop]
      rw [if_neg hn]
      dsimp only
      rw [ih _ hrest]
      have hkeys : k ∉ pagesKeys (env.pages (listKindGVK r.gvk) "") := by
        simpa [touchedKeys, hn] using hr
      exact processClusterscoped_ovc_outside env r.gvk st k hkeys

/-! ## Decomposition and attempt lemmas for the cluster-scoped loop -/

theorem processResourcesLoop_append (env : Env) (l1 l2 : List APIResource) :
    ∀ st : GRState,
      processResourcesLoop env st (l1 ++ l2) =
        ((processResourcesLoop env st l1).1 ++
          (processResourcesLoop env (processResourcesLoop env st l1).2.1
            l2).1,
          (processResourcesLoop env (processResourcesLoop env st l1).2.1
            l2).2.1,
          (processResourcesLoop env st l1).2.2.1 ++
            (processResourcesLoop env (processResourcesLoop env st l1).2.1
              l2).2.2.1,
          (processResourcesLoop env st l1).2.2.2 ++
            (processResourcesLoop env (processResourcesLoop env st l1).2.1
              l2).2.2.2) := by
  induction l1 with
  | nil => intro st; simp [processResourcesLoop]
  | cons r rest ih =>
    intro st
    by_cases hn : r.namespaced
    · simp [processResourcesLoop, hn, ih]
    · cases hc : (processClusterscopedResources env r.gvk st).err <;>
        simp [processResourcesLoop, hn, hc, ih]

theorem paginatedListLoop_listCall_mem (env : Env) (gvk : GroupVersionKind)
    (nspace : String) (st : GRState) (prs : List PageResp) (h : prs ≠ []) :
    Event.listCall gvk nspace ∈ (paginatedListLoop env gvk nspace st prs).tr := by
  cases prs with
  | nil => exact absurd rfl h
  | cons p rest =>
    cases p with
    | failure msg => simp [paginatedListLoop]
    | page items cont =>
      unfold paginatedListLoop
      cases hr : (reconcileItems env st items).err with
      | some e => simp [hr]
      | none =>
        by_cases hc : cont = "" <;> simp [hr, hc]

theorem processResourcesLoop_attempts (env : Env) (r : APIResource)
    (hns : r.namespaced = false)
    (hpg : env.pages (listKindGVK r.gvk) "" ≠ []) :
    ∀ (l : List APIResource) (st : GRState), r ∈ l →
      Event.listCall (listKindGVK r.gvk) "" ∈
        (processResourcesLoop env st l).2.2.1 := by
  intro l
  induction l with
  | nil => intro st hmem; exact absurd hmem (by simp)
  | cons r0 rest ih =>
    intro st hmem
    rcases List.mem_cons.mp hmem with hhead | htail
    · subst hhead
      simp only [processResourcesLoop, hns, Bool.false_eq_true, if_neg,
        Bool.not_eq_true]
      cases hc : (processClusterscopedResources env r.gvk st).err <;>
        · simp only [hc]
          refine List.mem_append.mpr (Or.inl ?_)
          unfold processClusterscopedResources
          rw [processObjectInstances_tr]
          exact paginatedListLoop_listCall_mem env _ "" st _ hpg
    · by_cases hn : r0.namespaced
      · simp only [processResourcesLoop, hn, if_pos]
        exact ih _ htail
      · simp only [processResourcesLoop, hn, Bool.false_eq_true, if_neg,
          Bool.not_eq_true]
        cases hc : (processClusterscopedResources env r0.gvk st).err <;>
          · simp only [hc]
            exact List.mem_append.mpr (Or.inr (ih _ htail))

theorem processAllResources_parts (env : Env) (st : GRState)
    (rs : List APIResource) :
    (processAllResources env st rs).2.2 =
      (processResourcesLoop env st rs).2.2.1 ++
        (processNamespacedResources env (processResourcesLoop env st rs).2.1
          (processResourcesLoop env st rs).2.2.2).tr ∧
    (∀ x ∈ (processResourcesLoop env st rs).1,
      x ∈ (processAllResources env st rs).1) := by
  cases herr : (processNamespacedResources env
      (processResourcesLoop env st rs).2.1
      (processResourcesLoop env st rs).2.2.2).err with
  | some e =>
    constructor
    · simp [processAllResources, herr]
    · intro x hx
      simp [processAllResources, herr, hx]
  | none =>
    constructor
    · simp [processAllResources, herr]
    · intro x hx
      simp [processAllResources, herr, hx]

/-! ## Claim C6 -/

/-- C6: during cluster-scoped processing, when one kind's listing or
evaluation fails, every other cluster-scoped kind of the same pass (with a
nonempty listing) is still attempted — its List call appears in the pass's
trace; the failing kind's error is collected into the aggregated error list
returned for the pass; and durable-cache entries present after the earlier
kinds, at keys no later kind's listing can serve, persist to the end of the
cluster-scoped loop. -/
theorem processAllResources_cluster_isolation (env : Env) (st : GRState)
    (pre post : List APIResource) (bad : APIResource) (e : String)
    (hbad : bad.namespaced = false)
    (hfail : (processClusterscopedResources env bad.gvk
      (processResourcesLoop env st pre).2.1).err = some e) :
    (∀ r ∈ pre ++ post, r.namespaced = false →
      env.pages (listKindGVK r.gvk) "" ≠ [] →
      Event.listCall (listKindGVK r.gvk) "" ∈
        (processAllResources env st (pre ++ bad :: post)).2.2) ∧
    ("processing cluster scoped resources of type " ++ bad.gvk.kind ++ ": "
        ++ e) ∈ (processAllResources env st (pre ++ bad :: post)).1 ∧
    (∀ k v,
      (processResourcesLoop env st
          pre).2.1.objectValidationCache.lookupKey k = some v →
      k ∉ touchedKeys env bad →
      (∀ r ∈ post, k ∉ touchedKeys env r) →
      (processResourcesLoop env st
          (pre ++ bad :: post)).2.1.objectValidationCache.lookupKey k =
        some v) := by
  have hparts := processAllResources_parts env st (pre ++ bad :: post)
  refine ⟨?_, ?_, ?_⟩
  · intro r hr hns hpg
    have hmem : r ∈ pre ++ bad :: post := by
      rcases List.mem_append.mp hr with h1 | h2
      · exact List.mem_append.mpr (Or.inl h1)
      · exact List.mem_append.mpr (Or.inr (List.mem_cons_of_mem bad h2))
    have hin := processResourcesLoop_attempts env r hns hpg
      (pre ++ bad :: post) st hmem
    rw [hparts.1]
    exact List.mem_append.mpr (Or.inl hin)
  · refine hparts.2 _ ?_
    rw [processResourcesLoop_append env pre (bad :: post) st]
    refine List.mem_append.mpr (Or.inr ?_)
    simp only [processResourcesLoop, hbad, Bool.false_eq_true, if_neg,
      Bool.not_eq_true, hfail]
    simp
  · intro k v hv hkbad hkpost
    rw [processResourcesLoop_append env pre (bad :: post) st]
    have hstep : (processResourcesLoop env
        (processResourcesLoop env st pre).2.1
        (bad :: post)).2.1.objectValidationCache.lookupKey k =
        (processResourcesLoop env st
          pre).2.1.objectValidationCache.lookupKey k := by
      have hall : ∀ r ∈ bad :: post, k ∉ touchedKeys env r := by
        intro r hrm
        rcases List.mem_cons.mp hrm with hh | ht
        · exact hh ▸ hkbad
        · exact hkpost r ht
      exact processResourcesLoop_ovc_outside env k (bad :: post) _ hall
    rw [hstep]
    exact hv

/-- Witness for C6: with envThreeKinds (kind A succeeds, kind B's listing
fails, kind C succeeds), kind C is still attempted, B's error is in the
aggregate, and A's cache entry survives the whole cluster loop. -/
theorem processAllResources_cluster_isolation_witness :
    Event.listCall (listKindGVK gvkC) "" ∈
      (processAllResources envThreeKinds ⟨[], []⟩
        [⟨gvkA, false⟩, ⟨gvkB, false⟩, ⟨gvkC, false⟩]).2.2 ∧
    ("processing cluster scoped resources of type KindB: " ++
        "processing list: listing: boom") ∈
      (processAllResources envThreeKinds ⟨[], []⟩
        [⟨gvkA, false⟩, ⟨gvkB, false⟩, ⟨gvkC, false⟩]).1 ∧
    (processResourcesLoop envThreeKinds ⟨[], []⟩
        [⟨gvkA, false⟩, ⟨gvkB, false⟩,
          ⟨gvkC, false⟩]).2.1.objectValidationCache.lookupKey
      (newValidationKey objA) =
      some (newValidationResource "7" "uid-alpha" "outcome") := by
  have h := processAllResources_cluster_isolation envThreeKinds ⟨[], []⟩
    [⟨gvkA, false⟩] [⟨gvkC, false⟩] ⟨gvkB, false⟩
    ("processing list: listing: boom") (by decide) (by decide)
  exact ⟨h.1 ⟨gvkC, false⟩ (by decide) (by decide) (by decide),
    h.2.1,
    h.2.2 (newValidationKey objA)
      (newValidationResource "7" "uid-alpha" "outcome") (by decide)
      (by decide) (by decide)⟩

/-! ## Lemmas about the namespace loop -/

theorem nsLoop_cons_fail (env : Env) (gvks : List GroupVersionKind)
    (st : GRState) (ns : String)
    (h : (nsLoop env gvks st [ns]).err.isSome = true) :
    ∀ rest : List String,
      nsLoop env gvks st (ns :: rest) = nsLoop env gvks st [ns] := by
  intro rest
  rcases hG : groupAppObjects env ns gvks [] with ⟨res, tr⟩
  cases res with
  | error e => simp [nsLoop, hG]
  | ok groups =>
    cases hgl : (groupsLoop env ns st groups).err with
    | some e => simp [nsLoop, hG, hgl]
    | none =>
      simp [nsLoop, hG, hgl] at h

theorem nsLoop_fail_stops (env : Env) (gvks : List GroupVersionKind)
    (nsBad : String) :
    ∀ (l1 : List String) (st : GRState),
      (nsLoop env gvks st l1).err = none →
      (nsLoop env gvks (nsLoop env gvks st l1).st [nsBad]).err.isSome = true →
      ∀ l2 : List String,
        nsLoop env gvks st (l1 ++ nsBad :: l2) =
          nsLoop env gvks st (l1 ++ [nsBad]) := by
  intro l1
  induction l1 with
  | nil =>
    intro st hok hbad l2
    exact nsLoop_cons_fail env gvks st nsBad hbad l2
  | cons ns0 rest ih =>
    intro st hok hbad l2
    rcases hG : groupAppObjects env ns0 gvks [] with ⟨res, tr⟩
    cases res with
    | error e =>
      rw [show nsLoop env gvks st (ns0 :: rest) = ⟨some e, st, tr⟩ from by
        simp [nsLoop, hG]] at hok
      simp at hok
    | ok groups =>
      cases hgl : (groupsLoop env ns0 st groups).err with
      | some e =>
        rw [show nsLoop env gvks st (ns0 :: rest) =
            ⟨some e, (groupsLoop env ns0 st groups).st,
              tr ++ (groupsLoop env ns0 st groups).tr⟩ from by
          simp [nsLoop, hG, hgl]] at hok
        simp at hok
      | none =>
        simp only [nsLoop, hG, hgl] at hok hbad
        show nsLoop env gvks st (ns0 :: (rest ++ nsBad :: l2)) =
          nsLoop env gvks st (ns0 :: (rest ++ [nsBad]))
        simp only [nsLoop, hG, hgl]
        rw [ih ((groupsLoop env ns0 st groups).st) hok hbad l2]

/-! ## Claim C7 -/

/-- C7: during namespaced processing, an error while grouping or evaluating
the objects of one namespace makes the engine return immediately: the
result of the whole namespaced phase equals the result of processing only
the namespaces up to and including the failing one, so no namespace later
in the watched-namespace order is listed or evaluated in that pass. -/
theorem processNamespacedResources_early_abort (env : Env)
    (gvks : List GroupVersionKind) (st : GRState) (pre rest : List String)
    (nsBad : String)
    (hw : env.watchNamespaces = .ok (pre ++ nsBad :: rest))
    (hpre : (nsLoop env gvks st pre).err = none)
    (hbad : (nsLoop env gvks (nsLoop env gvks st pre).st
      [nsBad]).err.isSome = true) :
    processNamespacedResources env st gvks =
      nsLoop env gvks st (pre ++ [nsBad]) := by
  unfold processNamespacedResources
  rw [hw]
  exact nsLoop_fail_stops env gvks nsBad pre st hpre hbad rest

/-- Witness for C7: in envNsBad2 the loop over ns1, ns2, ns3 fails at ns2,
and the namespaced phase equals processing ns1 and ns2 only. -/
theorem processNamespacedResources_early_abort_witness :
    processNamespacedResources envNsBad2 ⟨[], []⟩ [gvkA] =
      nsLoop envNsBad2 [gvkA] ⟨[], []⟩ ["ns1", "ns2"] :=
  processNamespacedResources_early_abort envNsBad2 [gvkA] ⟨[], []⟩
    ["ns1"] ["ns3"] "ns2" rfl (by decide) (by decide)

/-! ## Lemmas about the pagination loop's trace -/

theorem reconciledObjs_append (a b : List Event) :
    reconciledObjs (a ++ b) = reconciledObjs a ++ reconciledObjs b := by
  induction a with
  | nil => rfl
  | cons e rest ih =>
    cases e <;> simp [reconciledObjs, ih]

theorem reconcile_tr_no_reconcileCall (env : Env) (st : GRState) (o : Obj) :
    reconciledObjs (reconcile env st o).tr = [] := by
  unfold reconcile
  by_cases hva : (st.objectValidationCache.objectAlreadyValidated o).1
  · simp [hva, reconciledObjs]
  · cases ht : env.toTyped o with
    | error e => simp [hva, ht, reconciledObjs]
    | ok t =>
      cases hr : env.runValidations t
          (if o.nspace.length > 0 then env.getNamespaceUID o.nspace else "") with
      | error e => simp [hva, ht, hr, reconciledObjs]
      | ok out => simp [hva, ht, hr, reconciledObjs]

theorem reconcileItems_reconciled (env : Env) :
    ∀ (items : List Obj) (st : GRState),
      (reconcileItems env st items).err = none →
      reconciledObjs (reconcileItems env st items).tr = items := by
  intro items
  induction items with
  | nil => intro st _; rfl
  | cons o rest ih =>
    intro st hok
    cases hr : (reconcile env st o).err with
    | some e =>
      rw [show reconcileItems env st (o :: rest) =
          ⟨some ("reconciling object: " ++ e), (reconcile env st o).st,
            Event.reconcileCall o :: (reconcile env st o).tr⟩ from by
        simp [reconcileItems, hr]] at hok
      simp at hok
    | none =>
      simp only [reconcileItems, hr] at hok ⊢
      rw [reconciledObjs_append]
      simp only [reconciledObjs, reconcile_tr_no_reconcileCall]
      rw [ih _ hok]
      simp

theorem paginatedListLoop_reconciled (env : Env) (gvk : GroupVersionKind)
    (nspace : String) :
    ∀ (prs : List PageResp) (st : GRState),
      wellFormedPages prs = true →
      (paginatedListLoop env gvk nspace st prs).err = none →
      reconciledObjs (paginatedListLoop env gvk nspace st prs).tr =
        pagesItems prs := by
  intro prs
  induction prs with
  | nil => intro st hwf _; simp [wellFormedPages] at hwf
  | cons p rest ih =>
    intro st hwf hok
    cases p with
    | failure msg =>
      simp [wellFormedPages] at hwf
    | page items cont =>
      cases rest with
      | nil =>
        have hcont : cont = "" := by
          simpa [wellFormedPages] using hwf
        subst hcont
        cases hr : (reconcileItems env st items).err with
        | some e =>
          rw [show paginatedListLoop env gvk nspace st
              [PageResp.page items ""] =
              ⟨some e, (reconcileItems env st items).st,
                Event.listCall gvk nspace ::
                  (reconcileItems env st items).tr⟩ from by
            simp [paginatedListLoop, hr]] at hok
          simp at hok
        | none =>
          simp only [paginatedListLoop, hr, if_pos rfl]
          simp only [reconciledObjs]
          rw [reconcileItems_reconciled env items st hr]
          simp [pagesItems, respItems]
      | cons p2 rest2 =>
        have hwf2 : cont ≠ "" ∧ wellFormedPages (p2 :: rest2) = true := by
          simpa [wellFormedPages] using hwf
        cases hr : (reconcileItems env st items).err with
        | some e =>
          rw [show paginatedListLoop env gvk nspace st
              (PageResp.page items cont :: p2 :: rest2) =
              ⟨some e, (reconcileItems env st items).st,
                Event.listCall gvk nspace ::
                  (reconcileItems env st items).tr⟩ from by
            simp [paginatedListLoop, hr]] at hok
          simp at hok
        | none =>
          simp only [paginatedListLoop, hr, if_neg hwf2.1] at hok ⊢
          simp only [reconciledObjs, List.append_eq, reconciledObjs_append]
          rw [reconcileItems_reconciled env items st hr,
            ih _ hwf2.2 hok]
          simp [pagesItems, respItems]

/-! ## Claim C8 -/

/-- C8: for a list served in well-formed pages (each page except the last
carrying a nonempty continuation token, the last carrying the empty token),
the pagination loop reconciles exactly the items of all pages, in order —
so when each reconcile succeeds, every item of every page is reconciled
exactly as often as it is served, with no duplicates and no omissions,
regardless of where the page boundaries fall. -/
theorem paginatedList_exactly_once (env : Env) (gvk : GroupVersionKind)
    (nspace : String) (st : GRState)
    (hwf : wellFormedPages (env.pages gvk nspace) = true)
    (hok : (paginatedList env gvk nspace st).err = none) :
    reconciledObjs (paginatedList env gvk nspace st).tr =
      pagesItems (env.pages gvk nspace) ∧
    ∀ o : Obj,
      reconcileCallsFor o (paginatedList env gvk nspace st).tr =
        ((pagesItems (env.pages gvk nspace)).filter
          (fun o2 => decide (o2 = o))).length := by
  have h1 := paginatedListLoop_reconciled env gvk nspace
    (env.pages gvk nspace) st hwf hok
  refine ⟨h1, fun o => ?_⟩
  unfold reconcileCallsFor
  rw [show (paginatedList env gvk nspace st).tr =
      (paginatedListLoop env gvk nspace st (env.pages gvk nspace)).tr from rfl,
    h1]

/-- Witness for C8: five items served in pages of two (tokens t1, t2, empty)
are all reconciled, and the third item is reconciled exactly once. -/
theorem paginatedList_exactly_once_witness :
    reconciledObjs (paginatedList envPaged gvkA "" ⟨[], []⟩).tr =
      pagesItems (envPaged.pages gvkA "") ∧
    reconcileCallsFor (mkClusterObj "o3" "1")
      (paginatedList envPaged gvkA "" ⟨[], []⟩).tr = 1 := by
  have h := paginatedList_exactly_once envPaged gvkA "" ⟨[], []⟩
    (by decide) (by decide)
  refine ⟨h.1, ?_⟩
  rw [h.2 (mkClusterObj "o3" "1")]
  decide

/-! ## Lemmas about labelled grouping -/

theorem addToGroups_mem (label : String) (o : Obj) :
    ∀ (groups : List (String × List Obj)) (l : String) (os : List Obj),
      (l, os) ∈ addToGroups groups label o → ∀ o2 ∈ os,
        memGroups groups o2 ∨ o2 = o := by
  intro groups
  induction groups with
  | nil =>
    intro l os hmem o2 ho2
    simp only [addToGroups, List.mem_singleton] at hmem
    have hos : os = [o] := congrArg Prod.snd hmem
    subst hos
    right
    simpa using ho2
  | cons p rest ih =>
    obtain ⟨l1, os1⟩ := p
    intro l os hmem o2 ho2
    by_cases hl : l1 = label
    · simp only [addToGroups, if_pos hl] at hmem
      rcases List.mem_cons.mp hmem with hh | ht
      · have hos : os = os1 ++ [o] := congrArg Prod.snd hh
        subst hos
        rcases List.mem_append.mp ho2 with h1 | h2
        · exact Or.inl ⟨l1, os1, by simp, h1⟩
        · right; simpa using h2
      · exact Or.inl ⟨l, os, List.mem_cons_of_mem _ ht, ho2⟩
    · simp only [addToGroups, if_neg hl] at hmem
      rcases List.mem_cons.mp hmem with hh | ht
      · have hos : os = os1 := congrArg Prod.snd hh
        have hll : l = l1 := congrArg Prod.fst hh
        subst hos
        subst hll
        exact Or.inl ⟨l, os, by simp, ho2⟩
      · rcases ih l os ht o2 ho2 with hg | ho
        · obtain ⟨l2, os2, hm2, ho2m⟩ := hg
          exact Or.inl ⟨l2, os2, List.mem_cons_of_mem _ hm2, ho2m⟩
        · exact Or.inr ho

theorem groupPageItems_mem :
    ∀ (items : List Obj) (groups : List (String × List Obj)) (l : String)
      (os : List Obj),
      (l, os) ∈ groupPageItems groups items → ∀ o2 ∈ os,
        memGroups groups o2 ∨ ∃ s, getAppLabel o2 = .ok s := by
  intro items
  induction items with
  | nil =>
    intro groups l os hmem o2 ho2
    exact Or.inl ⟨l, os, hmem, ho2⟩
  | cons o rest ih =>
    intro groups l os hmem o2 ho2
    cases hlab : getAppLabel o with
    | error e =>
      rw [show groupPageItems groups (o :: rest) =
          groupPageItems groups rest from by
        simp [groupPageItems, hlab]] at hmem
      exact ih groups l os hmem o2 ho2
    | ok lab =>
      rw [show groupPageItems groups (o :: rest) =
          groupPageItems (addToGroups groups lab o) rest from by
        simp [groupPageItems, hlab]] at hmem
      rcases ih _ l os hmem o2 ho2 with hg | hs
      · obtain ⟨l2, os2, hm2, ho2m⟩ := hg
        rcases addToGroups_mem lab o groups l2 os2 hm2 o2 ho2m with hg2 | heq
        · exact Or.inl hg2
        · subst heq
          exact Or.inr ⟨lab, hlab⟩
      · exact Or.inr hs

theorem groupPagesLoop_mem (gvk : GroupVersionKind) (nspace : String) :
    ∀ (prs : List PageResp) (groups gs : List (String × List Obj))
      (l : String) (os : List Obj),
      (groupPagesLoop gvk nspace groups prs).1 = .ok gs →
      (l, os) ∈ gs → ∀ o2 ∈ os,
        memGroups groups o2 ∨ ∃ s, getAppLabel o2 = .ok s := by
  intro prs
  induction prs with
  | nil =>
    intro groups gs l os hok hmem o2 ho2
    simp only [groupPagesLoop, Except.ok.injEq] at hok
    subst hok
    exact Or.inl ⟨l, os, hmem, ho2⟩
  | cons p rest ih =>
    intro groups gs l os hok hmem o2 ho2
    cases p with
    | failure msg => simp [groupPagesLoop] at hok
    | page items cont =>
      by_cases hc : cont = ""
      · rw [show (groupPagesLoop gvk nspace groups
            (PageResp.page items cont :: rest)).1 =
            .ok (groupPageItems groups items) from by
          simp [groupPagesLoop, hc]] at hok
        have hgs : gs = groupPageItems groups items := by
          injection hok.symm
        subst hgs
        exact groupPageItems_mem items groups l os hmem o2 ho2
      · rw [show (groupPagesLoop gvk nspace groups
            (PageResp.page items cont :: rest)).1 =
            (groupPagesLoop gvk nspace (groupPageItems groups items)
              rest).1 from by
          simp [groupPagesLoop, hc]] at hok
        rcases ih _ gs l os hok hmem o2 ho2 with hg | hs
        · obtain ⟨l2, os2, hm2, ho2m⟩ := hg
          exact groupPageItems_mem items groups l2 os2 hm2 o2 ho2m
        · exact Or.inr hs

theorem groupAppObjects_mem (env : Env) (nspace : String) :
    ∀ (gvks : List GroupVersionKind)
      (groups gs : List (String × List Obj)) (l : String) (os : List Obj),
      (groupAppObjects env nspace gvks groups).1 = .ok gs →
      (l, os) ∈ gs → ∀ o2 ∈ os,
        memGroups groups o2 ∨ ∃ s, getAppLabel o2 = .ok s := by
  intro gvks
  induction gvks with
  | nil =>
    intro groups gs l os hok hmem o2 ho2
    simp only [groupAppObjects, Except.ok.injEq] at hok
    subst hok
    exact Or.inl ⟨l, os, hmem, ho2⟩
  | cons gvk rest ih =>
    intro groups gs l os hok hmem o2 ho2
    rcases hpl : groupPagesLoop gvk nspace groups (env.pages gvk nspace) with
      ⟨res, tr⟩
    cases res with
    | error e =>
      rw [show (groupAppObjects env nspace (gvk :: rest) groups).1 =
          .error e from by simp [groupAppObjects, hpl]] at hok
      exact absurd hok (by simp)
    | ok groups1 =>
      rw [show (groupAppObjects env nspace (gvk :: rest) groups).1 =
          (groupAppObjects env nspace rest groups1).1 from by
        simp [groupAppObjects, hpl]] at hok
      rcases ih groups1 gs l os hok hmem o2 ho2 with hg | hs
      · obtain ⟨l2, os2, hm2, ho2m⟩ := hg
        have := groupPagesLoop_mem gvk nspace (env.pages gvk nspace)
          groups groups1 l2 os2 (by rw [hpl]) hm2 o2 ho2m
        exact this
      · exact Or.inr hs

/-! ## Lemmas about the group loop's LiveSet writes and evaluation calls -/

theorem has_store_mono (vc : validationCache) (o : Obj) (out : String)
    (k : validationKey) (h : vc.has k = true) :
    (vc.store o out).has k = true := by
  by_cases hk : k = newValidationKey o
  · subst hk
    simp [validationCache.has, validationCache.store, lookupKey_storeKey_self]
  · simpa [validationCache.has, lookupKey_store_ne vc o out k hk] using h

theorem partition_fst_cons (st : GRState) (o : Obj) (rest : List Obj) :
    (partitionNonValidated st (o :: rest)).1 =
      (partitionNonValidated
        ⟨(st.objectValidationCache.objectAlreadyValidated o).2,
          st.currentObjects.store o ""⟩ rest).1 := by
  simp only [partitionNonValidated]
  by_cases hva :
      (st.objectValidationCache.objectAlreadyValidated o).1 = true <;>
    simp [hva]

theorem partition_current_outside (objs : List Obj) (k : validationKey) :
    ∀ st : GRState, (∀ o2 ∈ objs, newValidationKey o2 ≠ k) →
      (partitionNonValidated st objs).1.currentObjects.lookupKey k =
        st.currentObjects.lookupKey k := by
  induction objs with
  | nil => intro st _; rfl
  | cons o rest ih =>
    intro st h
    have hko : k ≠ newValidationKey o := fun hc => h o (by simp) hc.symm
    have hrest : ∀ o2 ∈ rest, newValidationKey o2 ≠ k :=
      fun o2 h2 => h o2 (by simp [h2])
    rw [partition_fst_cons, ih _ hrest]
    exact lookupKey_store_ne st.currentObjects o "" k hko

theorem partition_current_mono (objs : List Obj) (k : validationKey) :
    ∀ st : GRState, st.currentObjects.has k = true →
      (partitionNonValidated st objs).1.currentObjects.has k = true := by
  induction objs with
  | nil => intro st h; exact h
  | cons o rest ih =>
    intro st h
    rw [partition_fst_cons]
    exact ih _ (has_store_mono st.currentObjects o "" k h)

theorem partition_current_has (objs : List Obj) (o : Obj) :
    ∀ st : GRState, o ∈ objs →
      (partitionNonValidated st objs).1.currentObjects.has
        (newValidationKey o) = true := by
  induction objs with
  | nil => intro st ho; exact absurd ho (by simp)
  | cons o1 rest ih =>
    intro st ho
    rw [partition_fst_cons]
    rcases List.mem_cons.mp ho with hh | ht
    · subst hh
      refine partition_current_mono rest (newValidationKey o) _ ?_
      simp [validationCache.has, validationCache.store,
        lookupKey_storeKey_self]
    · exact ih _ ht

theorem partition_sub (objs : List Obj) :
    ∀ (st : GRState) (o2 : Obj), o2 ∈ (partitionNonValidated st objs).2 →
      o2 ∈ objs := by
  induction objs with
  | nil => intro st o2 h; exact absurd h (by simp [partitionNonValidated])
  | cons o rest ih =>
    intro st o2 h
    simp only [partitionNonValidated] at h
    by_cases hva :
        (st.objectValidationCache.objectAlreadyValidated o).1 = true
    · rw [if_pos hva] at h
      exact List.mem_cons_of_mem _ (ih _ o2 h)
    · rw [if_neg hva] at h
      rcases List.mem_cons.mp h with hh | ht
      · simp [hh]
      · exact List.mem_cons_of_mem _ (ih _ o2 ht)

theorem reconcileGroup_current_eq (env : Env) (st : GRState)
    (objs : List Obj) (nspace : String) :
    (reconcileGroupOfObjects env st objs nspace).st.currentObjects =
      (partitionNonValidated st objs).1.currentObjects := by
  simp only [reconcileGroupOfObjects]
  cases hconv : convertAll env (partitionNonValidated st objs).2 with
  | error e => simp [hconv]
  | ok ts =>
    cases heval : env.runValidationsForObjects ts
        (env.getNamespaceUID nspace) with
    | error e => simp [hconv, heval]
    | ok out => simp [hconv, heval]

theorem reconcileGroup_tr_events (env : Env) (st : GRState)
    (objs : List Obj) (nspace : String) :
    ∀ ev ∈ (reconcileGroupOfObjects env st objs nspace).tr,
      ∃ ts uid,
        ev = Event.evalBatch (partitionNonValidated st objs).2 ts uid := by
  intro ev hev
  simp only [reconcileGroupOfObjects] at hev
  cases hconv : convertAll env (partitionNonValidated st objs).2 with
  | error e =>
    simp only [hconv] at hev
    exact absurd hev (by simp)
  | ok ts =>
    simp only [hconv] at hev
    cases heval : env.runValidationsForObjects ts
        (env.getNamespaceUID nspace) with
    | error e =>
      simp only [heval, List.mem_singleton] at hev
      exact ⟨ts, env.getNamespaceUID nspace, hev⟩
    | ok out =>
      simp only [heval, List.mem_singleton] at hev
      exact ⟨ts, env.getNamespaceUID nspace, hev⟩

theorem groupsLoop_evalBatch_mem (env : Env) (nspace : String) :
    ∀ (groups : List (String × List Obj)) (st : GRState) (objs ts : List Obj)
      (uid : String),
      Event.evalBatch objs ts uid ∈ (groupsLoop env nspace st groups).tr →
      ∃ l os, (l, os) ∈ groups ∧ ∀ o2 ∈ objs, o2 ∈ os := by
  intro groups
  induction groups with
  | nil => intro st objs ts uid h; exact absurd h (by simp [groupsLoop])
  | cons p rest ih =>
    obtain ⟨label, os0⟩ := p
    intro st objs ts uid h
    cases hr : (reconcileGroupOfObjects env st os0 nspace).err with
    | some e =>
      rw [show (groupsLoop env nspace st ((label, os0) :: rest)).tr =
          (reconcileGroupOfObjects env st os0 nspace).tr from by
        simp [groupsLoop, hr]] at h
      obtain ⟨ts2, uid2, hev⟩ :=
        reconcileGroup_tr_events env st os0 nspace _ h
      have hobjs : objs = (partitionNonValidated st os0).2 := by
        injection hev
      subst hobjs
      exact ⟨label, os0, by simp, fun o2 h2 => partition_sub os0 st o2 h2⟩
    | none =>
      rw [show (groupsLoop env nspace st ((label, os0) :: rest)).tr =
          (reconcileGroupOfObjects env st os0 nspace).tr ++
            (groupsLoop env nspace
              (reconcileGroupOfObjects env st os0 nspace).st rest).tr from by
        simp [groupsLoop, hr]] at h
      rcases List.mem_append.mp h with h1 | h2
      · obtain ⟨ts2, uid2, hev⟩ :=
          reconcileGroup_tr_events env st os0 nspace _ h1
        have hobjs : objs = (partitionNonValidated st os0).2 := by
          injection hev
        subst hobjs
        exact ⟨label, os0, by simp, fun o2 h2 => partition_sub os0 st o2 h2⟩
      · obtain ⟨l2, os2, hm2, hsub⟩ := ih _ objs ts uid h2
        exact ⟨l2, os2, List.mem_cons_of_mem _ hm2, hsub⟩

theorem groupsLoop_current_outside (env : Env) (nspace : String)
    (k : validationKey) :
    ∀ (groups : List (String × List Obj)) (st : GRState),
      (∀ l os, (l, os) ∈ groups → ∀ o2 ∈ os, newValidationKey o2 ≠ k) →
      (groupsLoop env nspace st groups).st.currentObjects.lookupKey k =
        st.currentObjects.lookupKey k := by
  intro groups
  induction groups with
  | nil => intro st _; rfl
  | cons p rest ih =>
    obtain ⟨label, os0⟩ := p
    intro st h
    have hos0 : ∀ o2 ∈ os0, newValidationKey o2 ≠ k :=
      h label os0 (by simp)
    have hrest : ∀ l os, (l, os) ∈ rest → ∀ o2 ∈ os,
        newValidationKey o2 ≠ k :=
      fun l os hm => h l os (List.mem_cons_of_mem _ hm)
    have hgrp : (reconcileGroupOfObjects env st os0
        nspace).st.currentObjects.lookupKey k =
        st.currentObjects.lookupKey k := by
      rw [reconcileGroup_current_eq]
      exact partition_current_outside os0 k st hos0
    cases hr : (reconcileGroupOfObjects env st os0 nspace).err with
    | some e =>
      rw [show (groupsLoop env nspace st ((label, os0) :: rest)).st =
          (reconcileGroupOfObjects env st os0 nspace).st from by
        simp [groupsLoop, hr]]
      exact hgrp
    | none =>
      rw [show (groupsLoop env nspace st ((label, os0) :: rest)).st =
          (groupsLoop env nspace
            (reconcileGroupOfObjects env st os0 nspace).st rest).st from by
        simp [groupsLoop, hr]]
      rw [ih _ hrest]
      exact hgrp

/-! ## Claim C9 -/

/-- C9: a namespace-scoped object for which neither the metadata label path
nor the selector fallback path resolves an app label is excluded from the
namespace's processing without surfacing an error: it appears in no group
returned by groupAppObjects, its identity is never added to the LiveSet
while the namespace's groups are reconciled (assuming it was not already
there and no grouped object shares its identity), and no batch evaluation
call contains it. -/
theorem unlabeled_object_excluded (env : Env) (nspace : String)
    (gvks : List GroupVersionKind) (st : GRState) (o : Obj) (e : String)
    (groups : List (String × List Obj))
    (hlab : getAppLabel o = .error e)
    (hg : (groupAppObjects env nspace gvks []).1 = .ok groups)
    (hcur : st.currentObjects.lookupKey (newValidationKey o) = none)
    (hdis : ∀ l os, (l, os) ∈ groups → ∀ o2 ∈ os,
      newValidationKey o2 ≠ newValidationKey o) :
    (∀ l os, (l, os) ∈ groups → o ∉ os) ∧
    (groupsLoop env nspace st groups).st.currentObjects.lookupKey
      (newValidationKey o) = none ∧
    (∀ objs ts uid,
      Event.evalBatch objs ts uid ∈ (groupsLoop env nspace st groups).tr →
      o ∉ objs) := by
  have hexcl : ∀ l os, (l, os) ∈ groups → o ∉ os := by
    intro l os hm ho
    rcases groupAppObjects_mem env nspace gvks [] groups l os hg hm o ho with
      hmg | hs
    · obtain ⟨l2, os2, hm2, _⟩ := hmg
      exact absurd hm2 (by simp)
    · obtain ⟨s, hsok⟩ := hs
      rw [hlab] at hsok
      exact absurd hsok (by simp)
  refine ⟨hexcl, ?_, ?_⟩
  · rw [groupsLoop_current_outside env nspace (newValidationKey o) groups st
      hdis]
    exact hcur
  · intro objs ts uid hev ho
    obtain ⟨l, os, hm, hsub⟩ :=
      groupsLoop_evalBatch_mem env nspace groups st objs ts uid hev
    exact hexcl l os hm (hsub o ho)

/-- Witness for C9: in envUnlabeled's namespace ns1 the unlabelled object is
absent from the single app1 group, its identity never enters the LiveSet,
and the batch evaluation call does not contain it. -/
theorem unlabeled_object_excluded_witness :
    objNoLabel ∉ [mkObj "good" "1" "ns1"] ∧
    (groupsLoop envUnlabeled "ns1" ⟨[], []⟩
        [("app1", [mkObj "good" "1" "ns1"])]).st.currentObjects.lookupKey
      (newValidationKey objNoLabel) = none ∧
    objNoLabel ∉ [mkObj "good" "1" "ns1"] := by
  have h := unlabeled_object_excluded envUnlabeled "ns1" [gvkA] ⟨[], []⟩
    objNoLabel
    ("cannot find any app label for unlabeled resource from ns1 namespace")
    [("app1", [mkObj "good" "1" "ns1"])]
    rfl rfl rfl
    (by
      intro l os hm o2 ho2
      simp only [List.mem_singleton] at hm
      have hos : os = [mkObj "good" "1" "ns1"] := congrArg Prod.snd hm
      subst hos
      simp only [List.mem_singleton] at ho2
      subst ho2
      decide)
  exact ⟨h.1 "app1" [mkObj "good" "1" "ns1"] (by decide), h.2.1,
    h.2.2 [mkObj "good" "1" "ns1"] [mkObj "good" "1" "ns1"] ""
      (by decide)⟩

/-! ## Claim C10 -/

theorem not_mem_of_signals_zero (k : validationKey) :
    ∀ (tr : List Event) (r : Request), deletionSignalsFor k tr = 0 →
      Event.deleteMetrics k r ∉ tr := by
  intro tr
  induction tr with
  | nil => intro r _; simp
  | cons e rest ih =>
    intro r h he
    cases e with
    | deleteMetrics k2 req2 =>
      by_cases hk2 : k2 = k
      · rw [show deletionSignalsFor k
            (Event.deleteMetrics k2 req2 :: rest) =
            1 + deletionSignalsFor k rest from by
          simp [deletionSignalsFor, hk2]] at h
        omega
      · rcases List.mem_cons.mp he with hh | ht
        · injection hh.symm with h1 h2
          exact hk2 h1
        · refine ih r ?_ ht
          rw [show deletionSignalsFor k
              (Event.deleteMetrics k2 req2 :: rest) =
              0 + deletionSignalsFor k rest from by
            simp [deletionSignalsFor, hk2]] at h
          omega
    | listCall g n =>
      rcases List.mem_cons.mp he with hh | ht
      · exact absurd hh (by simp)
      · exact ih r (by simpa [deletionSignalsFor] using h) ht
    | reconcileCall o2 =>
      rcases List.mem_cons.mp he with hh | ht
      · exact absurd hh (by simp)
      · exact ih r (by simpa [deletionSignalsFor] using h) ht
    | evalOne k2 n =>
      rcases List.mem_cons.mp he with hh | ht
      · exact absurd hh (by simp)
      · exact ih r (by simpa [deletionSignalsFor] using h) ht
    | evalBatch a b c =>
      rcases List.mem_cons.mp he with hh | ht
      · exact absurd hh (by simp)
      · exact ih r (by simpa [deletionSignalsFor] using h) ht

/-- C10: in both the single-object reconcile path and the group reconcile
path, every processed object is recorded in the LiveSet (currentObjects)
before the already-validated check and before any type conversion or
evaluation is attempted — so whatever the outcome (including type-conversion
and evaluation errors), the resulting state's LiveSet contains the object's
identity; consequently the deletion-reclaim phase run on the state left by
a (possibly failed) reconcile never emits a deletion signal for that
identity. -/
theorem liveset_recorded_first (env : Env) (st : GRState) (o : Obj)
    (objs : List Obj) (nspace : String) (ho : o ∈ objs) :
    (reconcile env st o).st.currentObjects.has (newValidationKey o) = true ∧
    (reconcileGroupOfObjects env st objs nspace).st.currentObjects.has
      (newValidationKey o) = true ∧
    ∀ r : Request,
      Event.deleteMetrics (newValidationKey o) r ∉
        (handleResourceDeletions env (reconcile env st o).st).2 := by
  refine ⟨reconcile_has_current env st o, ?_, ?_⟩
  · rw [reconcileGroup_current_eq env st objs nspace]
    exact partition_current_has objs o st ho
  · intro r
    apply not_mem_of_signals_zero
    exact handleLoop_signals_zero_of_live env
      (reconcile env st o).st.currentObjects
      (reconcile env st o).st.objectValidationCache (newValidationKey o)
      (reconcile_has_current env st o)
      (reconcile env st o).st.objectValidationCache

/-- Witness for C10: under envEvalFails reconciling objA fails at the
validation call, yet objA's identity is in the LiveSet on both paths and the
deletion-reclaim phase emits no signal for it. -/
theorem liveset_recorded_first_witness :
    (reconcile envEvalFails ⟨[], []⟩ objA).st.currentObjects.has
      (newValidationKey objA) = true ∧
    (reconcileGroupOfObjects envEvalFails ⟨[], []⟩ [objA]
        "").st.currentObjects.has (newValidationKey objA) = true ∧
    Event.deleteMetrics (newValidationKey objA)
        { kind := "ClusterRole", name := "alpha", nspace := ""
          nspaceUID := "", uid := "uid-alpha" } ∉
      (handleResourceDeletions envEvalFails
        (reconcile envEvalFails ⟨[], []⟩ objA).st).2 := by
  have h := liveset_recorded_first envEvalFails ⟨[], []⟩ objA [objA] ""
    (by decide)
  exact ⟨h.1, h.2.1,
    h.2.2 { kind := "ClusterRole", name := "alpha", nspace := "",
            nspaceUID := "", uid := "uid-alpha" }⟩

end DVO
